import Mathlib

/-!
# Verification of the Vsrdle round-generation and selection engine

Shallow embedding of the core game engine of the `microvsrdle` repository:

* `js/tierUtils.js`  — tier ladder and strength comparison,
* `js/gameLogic.js`  — the Classic (two-card) round engine
  (embedded from the current engine file, the one enforcing the
  exact-distance-3 very-hard policy),
* `js/gameLogicOdd.js` — the Odd-One-Out (four-card) round engine
  (embedded from the current engine file, the one deduplicating the
  filtered pool by identity key),
* `js/stats.js`      — lifetime stats accumulator.

Conventions of the embedding:

* JS strings are `String`, JS numbers indexing the ladder are `Int`
  (`indexOf` returns `-1` when absent), counters are `Nat`.
* `Math.random()`-driven choices are made explicit: every function that
  samples takes a stream of natural numbers (`List Nat`); an index drawn
  for an array of length `n` is `d % n`.  Quantifying over all streams
  covers all random behaviours of the source.
* A JS `Set` of strings is a `List String` used only through membership.
* Functions that can throw in JS (indexing an empty array and
  destructuring the `undefined` result) return `Option`; `none` models a
  propagated exception.
* `recordRound(correct, streakAfterRound)` call sites are made visible:
  the choice handlers return, besides the result object and the updated
  engine state, the argument pair passed to `recordRound`
  (`none` when `recordRound` was not invoked).
-/

namespace Vsrdle

/-- Round lifecycle phase, from `gameLogic.js` / `gameLogicOdd.js`. -/
inductive Phase where
  | loading
  | inRound
  | afterCorrect
  | afterWrong
  | error
deriving DecidableEq, Repr

/-- A normalized character record (`dataLoader.js` / `normalizeCharacter`).
Only the fields the core engine reads are kept.  `highestTier` is
`none` when the raw record had no ranked tier (`highestTier: null`). -/
structure Character where
  id : String
  name : String
  origin : String
  highestTier : Option String
deriving DecidableEq, Repr

/-- Settings consumed by the engines (`settings.js`). -/
structure Settings where
  veryHardMode : Bool
  customMode : Bool
  customSeries : List String
  lightMode : Bool
deriving DecidableEq, Repr

/-- The fixed subtier ladder `TIER_ORDER` from `tierUtils.js`. -/
def TIER_ORDER : List String :=
  ["Tier 0",
   "High 1-A", "1-A", "Low 1-A",
   "High 1-B", "1-B", "1-C", "Low 1-C",
   "2-A", "2-B", "2-C", "Low 2-C",
   "High 3-A", "3-A", "3-B", "3-C",
   "4-A", "4-B", "High 4-C", "4-C", "Low 4-C",
   "High 5-A", "5-A", "5-B", "Low 5-B", "5-C",
   "Tier 6", "High 6-A", "6-A", "High 6-B", "6-B", "Low 6-B", "High 6-C", "6-C",
   "High 7-A", "7-A", "7-B", "Low 7-B", "High 7-C", "7-C", "Low 7-C",
   "8-A", "8-B", "High 8-C", "8-C",
   "9-A", "9-B", "9-C",
   "10-A", "10-B", "10-C",
   "11-A", "11-B", "11-C"]

/-- First index of `t` in `l` starting at offset `n` (JS `Array.indexOf`). -/
def idxOfAux (t : String) : List String → Nat → Option Nat
  | [], _ => none
  | x :: xs, n => if x = t then some n else idxOfAux t xs (n + 1)

/-- `getTierIndex` from `tierUtils.js`: ladder position or `-1`. -/
def getTierIndex (t : String) : Int :=
  match idxOfAux t TIER_ORDER 0 with
  | some n => (n : Int)
  | none => -1

/-- `TIER_ORDER.indexOf(c.highestTier)` where `highestTier` may be `null`:
`indexOf(null)` on a string array is `-1`. -/
def tierIndexOpt (t : Option String) : Int :=
  match t with
  | some s => getTierIndex s
  | none => -1

/-- `getStrongerCharacter` from `tierUtils.js`: lower ladder index wins;
`null` when either side is unranked. -/
def getStrongerCharacter (a b : Character) : Option Character :=
  if tierIndexOpt a.highestTier < 0 ∨ tierIndexOpt b.highestTier < 0 then
    none
  else if tierIndexOpt a.highestTier < tierIndexOpt b.highestTier then
    some a
  else some b

/-- `getCharacterKey` (identical in both engine files): identity key
`name::origin`.  For normalized records `c.name`/`c.origin` and the raw
fallbacks coincide, so the embedding reads the normalized fields. -/
def getCharacterKey (c : Character) : String :=
  c.name ++ "::" ++ c.origin

/-- JS truthiness of `c.highestTier` (`if (!c.highestTier) continue`):
a present, non-empty tier string. -/
def hasTier (c : Character) : Bool :=
  match c.highestTier with
  | some t => t ≠ ""
  | none => false

/-- The tier string a character is grouped under (only meaningful when
`hasTier` holds). -/
def tierKeyOf (c : Character) : String :=
  c.highestTier.getD ""

/-- Insertion-order key collection of a JS `Map` built by repeated
insertion: keep each string the first time it is seen. -/
def dedupListGo (seen : List String) : List String → List String
  | [] => []
  | x :: xs =>
    if seen.contains x then dedupListGo seen xs
    else x :: dedupListGo (x :: seen) xs

/-- First occurrences of a string list, in order. -/
def dedupList (l : List String) : List String :=
  dedupListGo [] l

/-- Keys of the tier grouping `Map` built from `pool` (in insertion
order), as in `buildFilteredGroups` / `startNewOddRound`. -/
def groupKeys (pool : List Character) : List String :=
  dedupList ((pool.filter hasTier).map tierKeyOf)

/-- `groups.get(t) || []`: the members of `pool` grouped under tier `t`,
in pool order. -/
def groupGet (pool : List Character) (t : String) : List Character :=
  pool.filter (fun c => hasTier c && tierKeyOf c == t)

/-- The mode filters shared by both engines (`buildFilteredGroups` /
`buildFilteredPoolForOdd`): Very-Hard drops `Tier 0`, custom mode with a
non-empty series list keeps only allowed origins. -/
def modeFilteredPool (settings : Settings) (allChars : List Character) :
    List Character :=
  let pool :=
    if settings.veryHardMode then
      allChars.filter (fun c => c.highestTier ≠ some "Tier 0")
    else allChars
  if settings.customMode ∧ settings.customSeries ≠ [] then
    pool.filter (fun c => settings.customSeries.contains c.origin)
  else pool

/-- `Set.add`: insert a key, keeping set semantics. -/
def addKey (ks : List String) (k : String) : List String :=
  if ks.contains k then ks else k :: ks

/-- Consume one number from the random stream (`Math.random()` draw);
an exhausted stream keeps yielding `0`. -/
def draw (ds : List Nat) : Nat × List Nat :=
  match ds with
  | [] => (0, [])
  | d :: rest => (d, rest)

/-- Lifetime stats (`stats.js`). -/
structure Stats where
  totalRounds : Nat
  totalCorrectRounds : Nat
  bestStreak : Nat
deriving DecidableEq, Repr

/-- `recordRound` from `stats.js`. -/
def recordRound (st : Stats) (correct : Bool) (streakAfterRound : Nat) :
    Stats :=
  let st1 := { st with totalRounds := st.totalRounds + 1 }
  if correct then
    let st2 := { st1 with totalCorrectRounds := st1.totalCorrectRounds + 1 }
    if streakAfterRound > st2.bestStreak then
      { st2 with bestStreak := streakAfterRound }
    else st2
  else st1

/-- Apply a (possibly absent) `recordRound` call to the stats. -/
def applyRec (st : Stats) : Option (Bool × Nat) → Stats
  | none => st
  | some (c, k) => recordRound st c k

/-- A sequence of `recordRound` calls. -/
def runRecord (st : Stats) (calls : List (Bool × Nat)) : Stats :=
  calls.foldl (fun acc ck => recordRound acc ck.1 ck.2) st

/-- The largest `streakAfterRound` passed on a call with
`correct = true` (0 when there is none). -/
def maxCorrectStreak (calls : List (Bool × Nat)) : Nat :=
  ((calls.filter (fun ck => ck.1)).map (fun ck => ck.2)).foldr max 0

/-! ## Classic two-card engine (`gameLogic.js`) -/

/-- The Classic engine's mutable module state. -/
structure GameState where
  phase : Phase
  currentPair : Option (Character × Character)
  correctId : Option String
  streak : Nat
  usedCharacterKeys : List String
deriving DecidableEq, Repr

/-- `initGameState` (also the state `restartGame` resets to before it
starts a round). -/
def initGameState : GameState :=
  { phase := .inRound, currentPair := none, correctId := none,
    streak := 0, usedCharacterKeys := [] }

/-- `pickCharacterFromGroup`: uniform pick among the group members whose
identity key is not yet used; `null` when none remain. -/
def pickCharacterFromGroup (used : List String) (group : List Character)
    (d : Nat) : Option Character :=
  if group.isEmpty then none
  else
    let available :=
      group.filter (fun c => !(used.contains (getCharacterKey c)))
    if available.isEmpty then none
    else available.get? (d % available.length)

/-- Whether the tier pair `(tA, tB)` is kept as a candidate pair:
Very-Hard requires ladder distance exactly 3, normal mode any positive
distance (`startNewRound` in `gameLogic.js`). -/
def vhKeep (vh : Bool) (tA tB : String) : Bool :=
  let distance := (getTierIndex tA - getTierIndex tB).natAbs
  if vh then distance == 3 else distance > 0

/-- The nested `i < j` loop building `candidatePairs` over the tier
list, in row-major order. -/
def candidateLoop (vh : Bool) : List String → List (String × String)
  | [] => []
  | t :: rest =>
    (rest.filter (fun tB => vhKeep vh t tB)).map (fun tB => (t, tB)) ++
      candidateLoop vh rest

/-- The `while (attempts < 40)` sampling loop of `startNewRound`:
draw a candidate tier pair, draw one unused character from each side's
group, compute the stronger; commit on success, retry otherwise, phase
`error` when the attempt budget is exhausted. -/
def attemptLoop (pool : List Character) (used : List String)
    (cps : List (String × String)) (s : GameState) :
    Nat → List Nat → GameState
  | 0, _ => { s with phase := .error }
  | fuel + 1, ds =>
    match pickCharacterFromGroup used
        (groupGet pool
          ((cps.get? ((draw ds).1 % cps.length)).getD ("", "")).1)
        (draw (draw ds).2).1,
      pickCharacterFromGroup used
        (groupGet pool
          ((cps.get? ((draw ds).1 % cps.length)).getD ("", "")).2)
        (draw (draw (draw ds).2).2).1 with
    | some l, some r =>
      match getStrongerCharacter l r with
      | some stronger =>
        { s with currentPair := some (l, r), correctId := some stronger.id,
                 phase := .inRound }
      | none =>
        attemptLoop pool used cps s fuel (draw (draw (draw ds).2).2).2
    | _, _ =>
      attemptLoop pool used cps s fuel (draw (draw (draw ds).2).2).2

/-- The `tiers` array of `startNewRound`: the grouping keys whose group
is non-empty. -/
def classicTiers (settings : Settings) (allChars : List Character) :
    List String :=
  (groupKeys (modeFilteredPool settings allChars)).filter
    (fun k => ¬ (groupGet (modeFilteredPool settings allChars) k).isEmpty)

/-- `startNewRound` from `gameLogic.js`.  Returns `none` for the one
path on which the JS code throws: normal difficulty with a non-trivial
tier list but an empty `candidatePairs` array, where
`candidatePairs[...]` is `undefined` and destructuring it raises a
`TypeError` (unreachable for ladder-ranked pools). -/
def startNewRound (settings : Settings) (allChars : List Character)
    (s : GameState) (ds : List Nat) : Option GameState :=
  if (classicTiers settings allChars).length < 2 then
    some { s with phase := .error }
  else
    if settings.veryHardMode ∧
        (candidateLoop settings.veryHardMode
          (classicTiers settings allChars)).length = 0 then
      some { s with phase := .error }
    else if (candidateLoop settings.veryHardMode
        (classicTiers settings allChars)).isEmpty then none
    else
      some (attemptLoop (modeFilteredPool settings allChars)
        s.usedCharacterKeys
        (candidateLoop settings.veryHardMode
          (classicTiers settings allChars))
        s 40 ds)

/-- The outcome object `handleChoice` returns on a valid selection. -/
structure ChoiceResult where
  correct : Bool
  selectedId : String
  correctId : Option String
  streak : Nat
  phase : Phase
deriving DecidableEq, Repr

/-- The `selected` ternary chain of `handleChoice`: the side whose `id`
matches, or `null`. -/
def selectedOf (left right : Character) (selectedId : String) :
    Option Character :=
  if left.id == selectedId then some left
  else if right.id == selectedId then some right
  else none

/-- `handleChoice` from `gameLogic.js`.  The first component is the
result object (`none` models `{valid:false}`), the second the updated
state, the third the `(correct, streakAfterRound)` argument pair of the
`recordRound` call the function made (`none` when it made none).
On a wrong answer the source calls `recordRound(false, streak)` before
resetting `streak` to 0, so the recorded pair carries the pre-reset
streak. -/
def handleChoice (s : GameState) (selectedId : String) :
    Option ChoiceResult × GameState × Option (Bool × Nat) :=
  if s.phase ≠ .inRound then (none, s, none)
  else
    match s.currentPair with
    | none => (none, s, none)
    | some (left, right) =>
      match selectedOf left right selectedId with
      | none => (none, s, none)
      | some sel =>
        let used1 :=
          addKey (addKey s.usedCharacterKeys (getCharacterKey left))
            (getCharacterKey right)
        let correct := some sel.id == s.correctId
        if correct then
          let s1 := { s with usedCharacterKeys := used1,
                             streak := s.streak + 1, phase := .afterCorrect }
          (some { correct := true, selectedId := selectedId,
                  correctId := s.correctId, streak := s1.streak,
                  phase := .afterCorrect },
           s1, some (true, s.streak + 1))
        else
          let s1 := { s with usedCharacterKeys := used1,
                             streak := 0, phase := .afterWrong }
          (some { correct := false, selectedId := selectedId,
                  correctId := s.correctId, streak := 0,
                  phase := .afterWrong },
           s1, some (false, s.streak))

/-- `restartGame`: reset the run state and immediately start a round. -/
def restartGame (settings : Settings) (allChars : List Character)
    (ds : List Nat) : Option GameState :=
  startNewRound settings allChars initGameState ds

/-! ## Odd-One-Out four-card engine (`gameLogicOdd.js`) -/

/-- The Odd-One-Out engine's mutable module state. -/
structure OddGameState where
  phase : Phase
  options : List Character
  oddId : Option String
  streak : Nat
  usedCharacterKeys : List String
deriving DecidableEq, Repr

/-- `initOddGameState` (also what `restartOddGame` resets to). -/
def initOddGameState : OddGameState :=
  { phase := .inRound, options := [], oddId := none,
    streak := 0, usedCharacterKeys := [] }

/-- The `dedupedByKey` map of `buildFilteredPoolForOdd` (and the
`seenKeys` integrity guard of `startNewOddRound`): keep the first record
seen for each identity key, in order. -/
def dedupByKeyGo (seen : List String) : List Character → List Character
  | [] => []
  | c :: rest =>
    if seen.contains (getCharacterKey c) then dedupByKeyGo seen rest
    else c :: dedupByKeyGo (getCharacterKey c :: seen) rest

/-- One representative per identity key, first occurrences in order. -/
def dedupByKey (l : List Character) : List Character :=
  dedupByKeyGo [] l

/-- `buildFilteredPoolForOdd`: mode filters, then the no-repeat filter
against the run's used keys, then identity-key dedup. -/
def buildFilteredPoolForOdd (settings : Settings)
    (allChars : List Character) (used : List String) : List Character :=
  let pool := modeFilteredPool settings allChars
  let pool :=
    pool.filter (fun c => !(used.contains (getCharacterKey c)))
  dedupByKey pool

/-- The picking loop of `pickRandomDistinct`: `count` rounds of drawing
a random index from `copy` and splicing the element out. -/
def pickGo : Nat → List Character → List Nat → List Character × List Nat
  | 0, _, ds => ([], ds)
  | n + 1, copy, ds =>
    match copy.get? ((draw ds).1 % copy.length) with
    | none => ([], (draw ds).2)
    | some c =>
      (c :: (pickGo n (copy.eraseIdx ((draw ds).1 % copy.length))
              (draw ds).2).1,
       (pickGo n (copy.eraseIdx ((draw ds).1 % copy.length))
          (draw ds).2).2)

/-- `pickRandomDistinct(arr, count)` from `gameLogicOdd.js`. -/
def pickRandomDistinct (arr : List Character) (count : Nat)
    (ds : List Nat) : Option (List Character) × List Nat :=
  if arr.length < count then (none, ds)
  else
    let (picked, ds1) := pickGo count arr ds
    (some picked, ds1)

/-- One Fisher–Yates swap: exchange positions `i` and `j` (identity
when either index is out of range, which the shuffle never hits). -/
def swapIdx (l : List Character) (i j : Nat) : List Character :=
  match l.get? i, l.get? j with
  | some a, some b => (l.set i b).set j a
  | _, _ => l

/-- The descending loop of `shuffleArray`: at index `i` (from
`length - 1` down to `1`) swap with a drawn `j ≤ i`. -/
def shuffleGo (l : List Character) (i : Nat) (ds : List Nat) :
    List Character :=
  match i with
  | 0 => l
  | k + 1 =>
    let (d, ds1) := draw ds
    let j := d % (k + 2)
    shuffleGo (swapIdx l (k + 1) j) k ds1

/-- `shuffleArray` from `gameLogicOdd.js` (Fisher–Yates). -/
def shuffleArray (l : List Character) (ds : List Nat) : List Character :=
  shuffleGo l (l.length - 1) ds

/-- Tail of `startNewOddRound` after the 3 + 1 draw: shuffle the four
options, strip accidental identity-key collisions (`seenKeys` guard),
and commit unless that left fewer than 4 options. -/
def oddFinish (majorityChars : List Character) (oddChar : Character)
    (s : OddGameState) (ds : List Nat) : OddGameState :=
  let options0 := shuffleArray (majorityChars ++ [oddChar]) ds
  let uniqueOptions := dedupByKey options0
  if uniqueOptions.length < 4 then { s with phase := .error }
  else
    { s with options := uniqueOptions, oddId := some oddChar.id,
             phase := .inRound }

/-- `startNewOddRound` from the chosen odd tier on: guard the group,
draw the odd character uniformly. -/
def oddWithOddTier (pool : List Character)
    (majorityChars : List Character) (oddTier : String)
    (s : OddGameState) (ds : List Nat) : OddGameState :=
  if (groupGet pool oddTier).isEmpty then { s with phase := .error }
  else
    match (groupGet pool oddTier).get?
        ((draw ds).1 % (groupGet pool oddTier).length) with
    | none => { s with phase := .error }
    | some oddChar => oddFinish majorityChars oddChar s (draw ds).2

/-- `startNewOddRound` from the drawn majority characters on: guard
their count, pick the odd tier uniformly among the other non-empty
tiers. -/
def oddWithMajority (pool : List Character) (tierKeys : List String)
    (majorityTier : String) (majorityChars : List Character)
    (s : OddGameState) (ds : List Nat) : OddGameState :=
  if majorityChars.length < 3 then { s with phase := .error }
  else
    let otherTiers := tierKeys.filter (fun t =>
      t ≠ majorityTier && 0 < (groupGet pool t).length)
    if otherTiers.isEmpty then { s with phase := .error }
    else
      oddWithOddTier pool majorityChars
        ((otherTiers.get? ((draw ds).1 % otherTiers.length)).getD "")
        s (draw ds).2

/-- `startNewOddRound` from the chosen majority tier on: guard the
group size, draw 3 distinct characters without replacement. -/
def oddWithMajorityTier (pool : List Character) (tierKeys : List String)
    (majorityTier : String) (s : OddGameState) (ds : List Nat) :
    OddGameState :=
  if (groupGet pool majorityTier).length < 3 then { s with phase := .error }
  else
    match (pickRandomDistinct (groupGet pool majorityTier) 3 ds).1 with
    | none => { s with phase := .error }
    | some majorityChars =>
      oddWithMajority pool tierKeys majorityTier majorityChars s
        (pickRandomDistinct (groupGet pool majorityTier) 3 ds).2

/-- `startNewOddRound` from the grouped pool on: find the candidate
majority tiers (3+ members and some other populated tier) and pick one
uniformly. -/
def oddSelectMajority (pool : List Character) (tierKeys : List String)
    (s : OddGameState) (ds : List Nat) : OddGameState :=
  let candidateMajorTiers := tierKeys.filter (fun t =>
    3 ≤ (groupGet pool t).length &&
      tierKeys.any (fun o => o ≠ t && 1 ≤ (groupGet pool o).length))
  if candidateMajorTiers.isEmpty then { s with phase := .error }
  else
    oddWithMajorityTier pool tierKeys
      ((candidateMajorTiers.get?
        ((draw ds).1 % candidateMajorTiers.length)).getD "")
      s (draw ds).2

/-- `startNewOddRound` from `gameLogicOdd.js`: build the filtered,
deduplicated pool, group it by tier, pick a majority tier with 3
available characters and some other non-empty tier, draw 3 + 1,
shuffle, re-check identity-key uniqueness, commit.  (The body is staged
through the `odd...` helpers above, one per guard of the source.) -/
def startNewOddRound (settings : Settings) (allChars : List Character)
    (s : OddGameState) (ds : List Nat) : OddGameState :=
  let pool := buildFilteredPoolForOdd settings allChars s.usedCharacterKeys
  if pool.length < 4 then { s with phase := .error }
  else
    if (groupKeys pool).length < 2 then { s with phase := .error }
    else oddSelectMajority pool (groupKeys pool) s ds

/-- The outcome object `handleOddChoice` returns on a valid selection. -/
structure OddChoiceResult where
  correct : Bool
  selectedId : String
  oddId : Option String
  options : List Character
  streak : Nat
  phase : Phase
deriving DecidableEq, Repr

/-- `handleOddChoice` from `gameLogicOdd.js`; components as in
`handleChoice`.  On a wrong answer the source calls
`recordRound(false, streak)` before resetting `streak` to 0. -/
def handleOddChoice (s : OddGameState) (selectedId : String) :
    Option OddChoiceResult × OddGameState × Option (Bool × Nat) :=
  if s.phase ≠ .inRound ∨ s.options.length ≠ 4 then (none, s, none)
  else
    match s.options.find? (fun c => c.id == selectedId) with
    | none => (none, s, none)
    | some _ =>
      let correct := some selectedId == s.oddId
      let used1 := s.options.foldl
        (fun ks c => addKey ks (getCharacterKey c)) s.usedCharacterKeys
      if correct then
        let s1 := { s with usedCharacterKeys := used1,
                           streak := s.streak + 1, phase := .afterCorrect }
        (some { correct := true, selectedId := selectedId, oddId := s.oddId,
                options := s.options, streak := s1.streak,
                phase := .afterCorrect },
         s1, some (true, s.streak + 1))
      else
        let s1 := { s with usedCharacterKeys := used1,
                           streak := 0, phase := .afterWrong }
        (some { correct := false, selectedId := selectedId, oddId := s.oddId,
                options := s.options, streak := 0, phase := .afterWrong },
         s1, some (false, s.streak))

/-- `restartOddGame`: reset the run state and immediately start a round. -/
def restartOddGame (settings : Settings) (allChars : List Character)
    (ds : List Nat) : OddGameState :=
  startNewOddRound settings allChars initOddGameState ds

/-! ## Operation traces

The presentation layer can invoke `startNewRound`, `handleChoice` and
`restartGame` (resp. the Odd-One-Out counterparts) in any order.  The
trace semantics instruments a run with the ghost history of resolved
rounds: each valid choice appends the identity keys of the round it
resolved; a restart begins a new run and clears the history. -/

/-- An engine operation the presentation layer can invoke. -/
inductive ClassicOp where
  | start : List Nat → ClassicOp
  | choose : String → ClassicOp
  | restart : List Nat → ClassicOp

/-- One Classic operation on state plus resolved-round history
(`none` models a propagated JS exception). -/
def classicStep (settings : Settings) (allChars : List Character)
    (p : GameState × List (List String)) :
    ClassicOp → Option (GameState × List (List String))
  | .start ds => (startNewRound settings allChars p.1 ds).map (fun s => (s, p.2))
  | .choose selectedId =>
    match handleChoice p.1 selectedId, p.1.currentPair with
    | (some _, s1, _), some (l, r) =>
      some (s1, p.2 ++ [[getCharacterKey l, getCharacterKey r]])
    | (_, s1, _), _ => some (s1, p.2)
  | .restart ds => (restartGame settings allChars ds).map (fun s => (s, []))

/-- Run Classic operations from a given instrumented state. -/
def classicRunFrom (settings : Settings) (allChars : List Character)
    (p : GameState × List (List String)) :
    List ClassicOp → Option (GameState × List (List String))
  | [] => some p
  | op :: ops =>
    match classicStep settings allChars p op with
    | none => none
    | some p1 => classicRunFrom settings allChars p1 ops

/-- Run Classic operations from the freshly initialized engine. -/
def classicRun (settings : Settings) (allChars : List Character)
    (ops : List ClassicOp) : Option (GameState × List (List String)) :=
  classicRunFrom settings allChars (initGameState, []) ops

/-- An Odd-One-Out engine operation. -/
inductive OddOp where
  | start : List Nat → OddOp
  | choose : String → OddOp
  | restart : List Nat → OddOp

/-- One Odd-One-Out operation on state plus resolved-round history. -/
def oddStep (settings : Settings) (allChars : List Character)
    (p : OddGameState × List (List String)) :
    OddOp → OddGameState × List (List String)
  | .start ds => (startNewOddRound settings allChars p.1 ds, p.2)
  | .choose selectedId =>
    match handleOddChoice p.1 selectedId with
    | (some _, s1, _) => (s1, p.2 ++ [p.1.options.map getCharacterKey])
    | (none, s1, _) => (s1, p.2)
  | .restart ds => (restartOddGame settings allChars ds, [])

/-- Run Odd-One-Out operations from a given instrumented state. -/
def oddRunFrom (settings : Settings) (allChars : List Character)
    (p : OddGameState × List (List String)) :
    List OddOp → OddGameState × List (List String)
  | [] => p
  | op :: ops => oddRunFrom settings allChars (oddStep settings allChars p op) ops

/-- Run Odd-One-Out operations from the freshly initialized engine. -/
def oddRun (settings : Settings) (allChars : List Character)
    (ops : List OddOp) : OddGameState × List (List String) :=
  oddRunFrom settings allChars (initOddGameState, []) ops

/-- Two key sets have no identity key in common. -/
def DisjKeys (r1 r2 : List String) : Prop :=
  ∀ k, k ∈ r1 → k ∉ r2

/-- What holds of a pair the Classic sampling loop commits. -/
def CommittedPair (pool : List Character) (used : List String)
    (cps : List (String × String)) (s1 : GameState) : Prop :=
  ∃ l r tA tB,
    s1.currentPair = some (l, r) ∧
    (tA, tB) ∈ cps ∧
    l ∈ groupGet pool tA ∧ r ∈ groupGet pool tB ∧
    getCharacterKey l ∉ used ∧ getCharacterKey r ∉ used ∧
    (∃ st, getStrongerCharacter l r = some st ∧ s1.correctId = some st.id)

/-- The resolved-round histories of a Classic instrumented run are
pairwise key-disjoint, and a currently committed, not yet resolved
round shares no key with any resolved round. -/
def ClassicNoRepeat (p : GameState × List (List String)) : Prop :=
  List.Pairwise DisjKeys p.2 ∧
  (p.1.phase = .inRound → ∀ l r, p.1.currentPair = some (l, r) →
    ∀ ks ∈ p.2, getCharacterKey l ∉ ks ∧ getCharacterKey r ∉ ks)

/-- Induction invariant for Classic runs: every logged key is used, a
committed unresolved pair is fresh, and the log is pairwise disjoint. -/
def ClassicInv (p : GameState × List (List String)) : Prop :=
  (∀ ks ∈ p.2, ∀ k ∈ ks, k ∈ p.1.usedCharacterKeys) ∧
  (p.1.phase = .inRound → ∀ l r, p.1.currentPair = some (l, r) →
    getCharacterKey l ∉ p.1.usedCharacterKeys ∧
    getCharacterKey r ∉ p.1.usedCharacterKeys) ∧
  List.Pairwise DisjKeys p.2

/-- Analogue of `ClassicNoRepeat` for the Odd-One-Out engine. -/
def OddNoRepeat (p : OddGameState × List (List String)) : Prop :=
  List.Pairwise DisjKeys p.2 ∧
  (p.1.phase = .inRound →
    ∀ ks ∈ p.2, ∀ c ∈ p.1.options, getCharacterKey c ∉ ks)

/-- Induction invariant for Odd-One-Out runs. -/
def OddInv (p : OddGameState × List (List String)) : Prop :=
  (∀ ks ∈ p.2, ∀ k ∈ ks, k ∈ p.1.usedCharacterKeys) ∧
  (p.1.phase = .inRound →
    ∀ c ∈ p.1.options, getCharacterKey c ∉ p.1.usedCharacterKeys) ∧
  List.Pairwise DisjKeys p.2

/-! ## Basic lemmas -/

theorem contains_iff (l : List String) (a : String) :
    l.contains a = true ↔ a ∈ l := List.elem_iff

theorem not_contains_iff (l : List String) (a : String) :
    l.contains a = false ↔ a ∉ l := by
  rw [← Bool.not_eq_true, not_iff_not]
  exact contains_iff l a

theorem mem_addKey (ks : List String) (k k' : String) :
    k' ∈ addKey ks k ↔ k' = k ∨ k' ∈ ks := by
  unfold addKey
  by_cases h : ks.contains k
  · simp only [h, if_pos]
    rw [contains_iff] at h
    constructor
    · exact Or.inr
    · rintro (rfl | hk) <;> [exact h; exact hk]
  · simp only [h]
    simp [List.mem_cons]

theorem groupGet_mem {pool : List Character} {t : String} {c : Character}
    (h : c ∈ groupGet pool t) : c ∈ pool ∧ c.highestTier = some t := by
  unfold groupGet at h
  rw [List.mem_filter] at h
  obtain ⟨hp, hf⟩ := h
  rw [Bool.and_eq_true] at hf
  obtain ⟨ht, he⟩ := hf
  refine ⟨hp, ?_⟩
  unfold hasTier at ht
  unfold tierKeyOf at he
  cases hc : c.highestTier with
  | none => rw [hc] at ht; simp at ht
  | some u =>
    rw [hc] at he
    simp only [Option.getD_some, beq_iff_eq] at he
    rw [he]

theorem pickCharacterFromGroup_spec {used : List String}
    {group : List Character} {d : Nat} {c : Character}
    (h : pickCharacterFromGroup used group d = some c) :
    c ∈ group ∧ getCharacterKey c ∉ used := by
  simp only [pickCharacterFromGroup] at h
  split at h
  · cases h
  · split at h
    · cases h
    · have hc := List.get?_mem h
      rw [List.mem_filter] at hc
      obtain ⟨hm, hf⟩ := hc
      refine ⟨hm, ?_⟩
      rw [Bool.not_eq_eq_eq_not, Bool.not_true] at hf
      exact (not_contains_iff _ _).mp hf

theorem candidateLoop_mem {vh : Bool} {tiers : List String}
    {p : String × String} (h : p ∈ candidateLoop vh tiers) :
    vhKeep vh p.1 p.2 = true := by
  induction tiers with
  | nil => simp [candidateLoop] at h
  | cons t rest ih =>
    unfold candidateLoop at h
    rw [List.mem_append] at h
    cases h with
    | inl h =>
      rw [List.mem_map] at h
      obtain ⟨tB, htB, rfl⟩ := h
      rw [List.mem_filter] at htB
      exact htB.2
    | inr h => exact ih h

theorem vhKeep_ne {vh : Bool} {tA tB : String}
    (h : vhKeep vh tA tB = true) : tA ≠ tB := by
  intro he
  subst he
  unfold vhKeep at h
  simp at h

theorem idxOfAux_get? {t : String} {l : List String} {n m : Nat}
    (h : idxOfAux t l n = some m) :
    ∃ k, m = n + k ∧ l.get? k = some t := by
  induction l generalizing n with
  | nil => simp [idxOfAux] at h
  | cons x xs ih =>
    unfold idxOfAux at h
    by_cases hx : x = t
    · rw [if_pos hx] at h
      cases h
      exact ⟨0, by omega, by simp [hx]⟩
    · rw [if_neg hx] at h
      obtain ⟨k, hk, hg⟩ := ih h
      exact ⟨k + 1, by omega, by simpa using hg⟩

theorem getTierIndex_inj {tA tB : String}
    (hA : 0 ≤ getTierIndex tA) (hB : 0 ≤ getTierIndex tB)
    (h : getTierIndex tA = getTierIndex tB) : tA = tB := by
  unfold getTierIndex at hA hB h
  match h1 : idxOfAux tA TIER_ORDER 0, h2 : idxOfAux tB TIER_ORDER 0 with
  | none, _ =>
    rw [h1] at hA
    exact absurd (show (0 : Int) ≤ -1 from hA) (by norm_num)
  | some a, none =>
    rw [h2] at hB
    exact absurd (show (0 : Int) ≤ -1 from hB) (by norm_num)
  | some a, some b =>
    rw [h1, h2] at h
    have hab : a = b := by exact_mod_cast (show (a : Int) = (b : Int) from h)
    obtain ⟨k1, hk1, hg1⟩ := idxOfAux_get? h1
    obtain ⟨k2, hk2, hg2⟩ := idxOfAux_get? h2
    have : k1 = k2 := by omega
    rw [this, hg2] at hg1
    exact (Option.some_inj.mp hg1).symm

theorem getStrongerCharacter_spec {a b c : Character}
    (h : getStrongerCharacter a b = some c) :
    (c = a ∨ c = b) ∧ 0 ≤ tierIndexOpt a.highestTier ∧
      0 ≤ tierIndexOpt b.highestTier := by
  unfold getStrongerCharacter at h
  split at h
  · cases h
  next hneg =>
    push_neg at hneg
    refine ⟨?_, hneg.1, hneg.2⟩
    split at h
    · exact Or.inl (Option.some_inj.mp h).symm
    · exact Or.inr (Option.some_inj.mp h).symm

theorem getStrongerCharacter_none_iff (a b : Character) :
    getStrongerCharacter a b = none ↔
      tierIndexOpt a.highestTier < 0 ∨ tierIndexOpt b.highestTier < 0 := by
  constructor
  · intro h
    unfold getStrongerCharacter at h
    by_contra hneg
    rw [if_neg hneg] at h
    split at h <;> cases h
  · intro h
    unfold getStrongerCharacter
    rw [if_pos h]

/-! ## Characterizing `startNewRound` -/

theorem hasTier_key_ne {c : Character} (h : hasTier c = true) :
    tierKeyOf c ≠ "" := by
  unfold hasTier at h
  unfold tierKeyOf
  cases hc : c.highestTier with
  | none => rw [hc] at h; simp at h
  | some u =>
    rw [hc] at h
    simp only [decide_eq_true_eq] at h
    simpa using h

theorem groupGet_key_empty (pool : List Character) :
    groupGet pool "" = [] := by
  unfold groupGet
  rw [List.filter_eq_nil_iff]
  intro c _ hc
  rw [Bool.and_eq_true] at hc
  exact absurd (by simpa using hc.2) (hasTier_key_ne hc.1)

theorem attemptLoop_spec (pool : List Character) (used : List String)
    (cps : List (String × String)) (s : GameState) :
    ∀ fuel ds,
      (attemptLoop pool used cps s fuel ds).usedCharacterKeys =
          s.usedCharacterKeys ∧
      (attemptLoop pool used cps s fuel ds).streak = s.streak ∧
      ((attemptLoop pool used cps s fuel ds).phase = .inRound ∨
        (attemptLoop pool used cps s fuel ds).phase = .error) ∧
      ((attemptLoop pool used cps s fuel ds).phase = .inRound →
        CommittedPair pool used cps (attemptLoop pool used cps s fuel ds)) := by
  intro fuel
  induction fuel with
  | zero =>
    intro ds
    refine ⟨rfl, rfl, Or.inr rfl, ?_⟩
    intro h
    exact absurd h (by simp [attemptLoop])
  | succ n ih =>
    intro ds
    simp only [attemptLoop]
    split
    next l r hl hr =>
      split
      next stronger hst =>
        refine ⟨rfl, rfl, Or.inl rfl, fun _ => ?_⟩
        obtain ⟨hlg, hlu⟩ := pickCharacterFromGroup_spec hl
        obtain ⟨hrg, hru⟩ := pickCharacterFromGroup_spec hr
        have hne : cps ≠ [] := by
          intro hnil
          rw [hnil] at hl
          simp only [List.get?_nil, Option.getD_none] at hl
          rw [groupGet_key_empty pool] at hl
          simp [pickCharacterFromGroup] at hl
        have hpos : 0 < cps.length := by
          cases cps with
          | nil => exact absurd rfl hne
          | cons a b => simp
        have hlt := Nat.mod_lt (draw ds).1 hpos
        have hget := List.get?_eq_get hlt
        rw [hget, Option.getD_some] at hlg hrg
        refine ⟨l, r, _, _, rfl, ?_, hlg, hrg, hlu, hru, stronger, hst, rfl⟩
        rw [Prod.mk.eta]
        exact List.get_mem cps _ hlt
      next => exact ih _
    next => exact ih _

theorem vhKeep_dist3 {tA tB : String} (h : vhKeep true tA tB = true) :
    (getTierIndex tA - getTierIndex tB).natAbs = 3 := by
  simp only [vhKeep, if_pos] at h
  exact beq_iff_eq.mp h

/-- What `startNewRound` guarantees whenever it returns (`some`):
run-scoped fields are untouched and, if it committed a round, the pair
is drawn from two distinct ranked tier groups of the filtered pool,
fresh with respect to the used-key set; under Very-Hard the two tiers
are at ladder distance exactly 3. -/
theorem startNewRound_spec {settings : Settings} {chars : List Character}
    {s s' : GameState} {ds : List Nat}
    (h : startNewRound settings chars s ds = some s') :
    s'.usedCharacterKeys = s.usedCharacterKeys ∧
    s'.streak = s.streak ∧
    (s'.phase = .inRound ∨ s'.phase = .error) ∧
    (s'.phase = .inRound →
      ∃ l r tA tB,
        s'.currentPair = some (l, r) ∧
        l.highestTier = some tA ∧ r.highestTier = some tB ∧
        l ∈ modeFilteredPool settings chars ∧
        r ∈ modeFilteredPool settings chars ∧
        tA ≠ tB ∧
        0 ≤ getTierIndex tA ∧ 0 ≤ getTierIndex tB ∧
        getCharacterKey l ∉ s.usedCharacterKeys ∧
        getCharacterKey r ∉ s.usedCharacterKeys ∧
        (settings.veryHardMode = true →
          (getTierIndex tA - getTierIndex tB).natAbs = 3)) := by
  simp only [startNewRound] at h
  split at h
  · cases h
    refine ⟨rfl, rfl, Or.inr rfl, fun hph => ?_⟩
    cases hph
  · split at h
    · cases h
      refine ⟨rfl, rfl, Or.inr rfl, fun hph => ?_⟩
      cases hph
    · split at h
      · cases h
      · cases h
        obtain ⟨hused, hstreak, hphases, hcommit⟩ :=
          attemptLoop_spec (modeFilteredPool settings chars)
            s.usedCharacterKeys
            (candidateLoop settings.veryHardMode
              (classicTiers settings chars))
            s 40 ds
        refine ⟨hused, hstreak, hphases, fun hph => ?_⟩
        obtain ⟨l, r, tA, tB, hpair, hcps, hlg, hrg, hlu, hru,
          stronger, hst, _⟩ := hcommit hph
        obtain ⟨hlp, hlt⟩ := groupGet_mem hlg
        obtain ⟨hrp, hrt⟩ := groupGet_mem hrg
        have hkeep := candidateLoop_mem hcps
        have hne := vhKeep_ne hkeep
        obtain ⟨_, hA, hB⟩ := getStrongerCharacter_spec hst
        rw [hlt] at hA
        rw [hrt] at hB
        refine ⟨l, r, tA, tB, hpair, hlt, hrt, hlp, hrp, hne, hA, hB,
          hlu, hru, fun hvh => ?_⟩
        rw [hvh] at hkeep
        exact vhKeep_dist3 hkeep

/-! ## Characterizing the choice handlers -/

theorem selectedOf_some {left right sel : Character} {selectedId : String}
    (h : selectedOf left right selectedId = some sel) :
    sel = left ∨ sel = right := by
  unfold selectedOf at h
  split at h
  · exact Or.inl (Option.some_inj.mp h).symm
  · split at h
    · exact Or.inr (Option.some_inj.mp h).symm
    · cases h

theorem selectedOf_eq_none {left right : Character} {selectedId : String}
    (hL : left.id ≠ selectedId) (hR : right.id ≠ selectedId) :
    selectedOf left right selectedId = none := by
  unfold selectedOf
  rw [if_neg (by simpa using hL), if_neg (by simpa using hR)]

/-- Full characterization of a valid `handleChoice` resolution. -/
theorem handleChoice_eq_some {s : GameState} {selectedId : String}
    {res : ChoiceResult} {s1 : GameState} {rec : Option (Bool × Nat)}
    (h : handleChoice s selectedId = (some res, s1, rec)) :
    s.phase = .inRound ∧
    ∃ l r, s.currentPair = some (l, r) ∧
      s1.currentPair = some (l, r) ∧
      s1.correctId = s.correctId ∧
      s1.usedCharacterKeys =
        addKey (addKey s.usedCharacterKeys (getCharacterKey l))
          (getCharacterKey r) ∧
      ((res.correct = true ∧ s1.phase = .afterCorrect ∧
        s1.streak = s.streak + 1 ∧ res.streak = s.streak + 1 ∧
        rec = some (true, s.streak + 1)) ∨
       (res.correct = false ∧ s1.phase = .afterWrong ∧
        s1.streak = 0 ∧ res.streak = 0 ∧
        rec = some (false, s.streak))) := by
  simp only [handleChoice] at h
  split at h
  · cases h
  next hph =>
    rw [not_not] at hph
    refine ⟨hph, ?_⟩
    split at h
    · cases h
    next left right hpair =>
      split at h
      · cases h
      next sel hsel =>
        split at h
        next hcor =>
          cases h
          exact ⟨left, right, hpair, hpair, rfl, rfl,
            Or.inl ⟨rfl, rfl, rfl, rfl, rfl⟩⟩
        next hcor =>
          cases h
          exact ⟨left, right, hpair, hpair, rfl, rfl,
            Or.inr ⟨rfl, rfl, rfl, rfl, rfl⟩⟩

/-- `handleChoice` is a strict no-op on any of its three guard
conditions. -/
theorem handleChoice_noop {s : GameState} {selectedId : String}
    (h : s.phase ≠ .inRound ∨ s.currentPair = none ∨
      (∀ l r, s.currentPair = some (l, r) →
        l.id ≠ selectedId ∧ r.id ≠ selectedId)) :
    handleChoice s selectedId = (none, s, none) := by
  rcases h with hph | hpair | hids
  · unfold handleChoice
    rw [if_pos hph]
  · unfold handleChoice
    rw [hpair]
    split
    next hc => rfl
    next hc => rfl
  · by_cases hph : s.phase ≠ .inRound
    · unfold handleChoice
      rw [if_pos hph]
    · unfold handleChoice
      rw [if_neg hph]
      cases hcp : s.currentPair with
      | none => rfl
      | some lr =>
        obtain ⟨l, r⟩ := lr
        obtain ⟨hL, hR⟩ := hids l r hcp
        dsimp only
        rw [selectedOf_eq_none hL hR]

/-- If `handleChoice` reports an invalid selection it changed nothing
and recorded nothing. -/
theorem handleChoice_none {s : GameState} {selectedId : String}
    (h : (handleChoice s selectedId).1 = none) :
    handleChoice s selectedId = (none, s, none) := by
  unfold handleChoice at h ⊢
  split at h
  next hc => rw [if_pos hc]
  next hc =>
    rw [if_neg hc]
    split at h
    next hcp => rfl
    next left right hcp =>
      split at h
      next hsel => rfl
      next sel hsel =>
        dsimp only at h
        split at h <;> simp at h

theorem mem_foldl_addKey (l : List Character) (ks : List String) :
    (∀ k ∈ ks,
      k ∈ l.foldl (fun a c => addKey a (getCharacterKey c)) ks) ∧
    (∀ c ∈ l,
      getCharacterKey c ∈
        l.foldl (fun a c => addKey a (getCharacterKey c)) ks) := by
  induction l generalizing ks with
  | nil => exact ⟨fun k hk => hk, fun c hc => absurd hc (by simp)⟩
  | cons c0 rest ih =>
    simp only [List.foldl_cons]
    constructor
    · intro k hk
      exact (ih (addKey ks (getCharacterKey c0))).1 k
        ((mem_addKey _ _ _).mpr (Or.inr hk))
    · intro c hc
      rcases List.mem_cons.mp hc with rfl | hc
      · exact (ih (addKey ks (getCharacterKey c))).1 _
          ((mem_addKey _ _ _).mpr (Or.inl rfl))
      · exact (ih (addKey ks (getCharacterKey c0))).2 c hc

/-- Full characterization of a valid `handleOddChoice` resolution. -/
theorem handleOddChoice_eq_some {s : OddGameState} {selectedId : String}
    {res : OddChoiceResult} {s1 : OddGameState} {rec : Option (Bool × Nat)}
    (h : handleOddChoice s selectedId = (some res, s1, rec)) :
    s.phase = .inRound ∧ s.options.length = 4 ∧
    s1.options = s.options ∧ s1.oddId = s.oddId ∧
    s1.usedCharacterKeys =
      s.options.foldl (fun ks c => addKey ks (getCharacterKey c))
        s.usedCharacterKeys ∧
    res.options = s.options ∧
    ((res.correct = true ∧ s1.phase = .afterCorrect ∧
      s1.streak = s.streak + 1 ∧ res.streak = s.streak + 1 ∧
      rec = some (true, s.streak + 1)) ∨
     (res.correct = false ∧ s1.phase = .afterWrong ∧
      s1.streak = 0 ∧ res.streak = 0 ∧
      rec = some (false, s.streak))) := by
  simp only [handleOddChoice] at h
  split at h
  · cases h
  next hguard =>
    push_neg at hguard
    refine ⟨hguard.1, hguard.2, ?_⟩
    split at h
    · cases h
    next sel hsel =>
      split at h
      next hcor =>
        cases h
        exact ⟨rfl, rfl, rfl, rfl, Or.inl ⟨rfl, rfl, rfl, rfl, rfl⟩⟩
      next hcor =>
        cases h
        exact ⟨rfl, rfl, rfl, rfl, Or.inr ⟨rfl, rfl, rfl, rfl, rfl⟩⟩

/-- `handleOddChoice` is a strict no-op on any of its guard
conditions. -/
theorem handleOddChoice_noop {s : OddGameState} {selectedId : String}
    (h : s.phase ≠ .inRound ∨ s.options.length ≠ 4 ∨
      (∀ c ∈ s.options, c.id ≠ selectedId)) :
    handleOddChoice s selectedId = (none, s, none) := by
  unfold handleOddChoice
  rcases h with hph | hlen | hids
  · rw [if_pos (Or.inl hph)]
  · rw [if_pos (Or.inr hlen)]
  · by_cases hguard : s.phase ≠ .inRound ∨ s.options.length ≠ 4
    · rw [if_pos hguard]
    · rw [if_neg hguard]
      have hfind : s.options.find? (fun c => c.id == selectedId) = none := by
        rw [List.find?_eq_none]
        intro c hc
        simpa using hids c hc
      rw [hfind]

/-- If `handleOddChoice` reports an invalid selection it changed
nothing and recorded nothing. -/
theorem handleOddChoice_none {s : OddGameState} {selectedId : String}
    (h : (handleOddChoice s selectedId).1 = none) :
    handleOddChoice s selectedId = (none, s, none) := by
  unfold handleOddChoice at h ⊢
  split at h
  next hc => rw [if_pos hc]
  next hc =>
    rw [if_neg hc]
    split at h
    next hfind => rfl
    next sel hfind =>
      dsimp only at h
      split at h <;> simp at h

/-! ## Sampling helpers of the Odd-One-Out engine -/

theorem dedupByKeyGo_sublist (l : List Character) :
    ∀ seen, (dedupByKeyGo seen l).Sublist l := by
  induction l with
  | nil => intro seen; simp [dedupByKeyGo]
  | cons c rest ih =>
    intro seen
    unfold dedupByKeyGo
    split
    · exact (ih seen).cons c
    · exact (ih _).cons₂ c

theorem dedupByKeyGo_keys (l : List Character) :
    ∀ seen,
      ((dedupByKeyGo seen l).map getCharacterKey).Nodup ∧
      (∀ c ∈ dedupByKeyGo seen l, getCharacterKey c ∉ seen) := by
  induction l with
  | nil => intro seen; simp [dedupByKeyGo]
  | cons c rest ih =>
    intro seen
    unfold dedupByKeyGo
    split
    next hseen => exact ih seen
    next hseen =>
      obtain ⟨ihn, ihs⟩ := ih (getCharacterKey c :: seen)
      constructor
      · rw [List.map_cons, List.nodup_cons]
        refine ⟨?_, ihn⟩
        intro hmem
        rw [List.mem_map] at hmem
        obtain ⟨c2, hc2, hkey⟩ := hmem
        exact absurd (hkey ▸ List.mem_cons_self _ _) (ihs c2 hc2)
      · intro c2 hc2
        rcases List.mem_cons.mp hc2 with rfl | hc2
        · exact (not_contains_iff _ _).mp (Bool.not_eq_true _ ▸ hseen)
        · exact fun hmem =>
            ihs c2 hc2 (List.mem_cons_of_mem _ hmem)

theorem dedupByKey_spec (l : List Character) :
    (dedupByKey l).Sublist l ∧
      ((dedupByKey l).map getCharacterKey).Nodup := by
  exact ⟨dedupByKeyGo_sublist l [], (dedupByKeyGo_keys l []).1⟩

theorem pickGo_subset (n : Nat) :
    ∀ copy ds, ∀ c ∈ (pickGo n copy ds).1, c ∈ copy := by
  induction n with
  | zero => intro copy ds c hc; simp [pickGo] at hc
  | succ m ih =>
    intro copy ds c hc
    unfold pickGo at hc
    split at hc
    · simp at hc
    next c0 hget =>
      rcases List.mem_cons.mp hc with rfl | hc2
      · exact List.get?_mem hget
      · exact (List.eraseIdx_sublist copy _).subset (ih _ _ c hc2)

theorem pickGo_length (n : Nat) :
    ∀ copy ds, n ≤ copy.length → (pickGo n copy ds).1.length = n := by
  induction n with
  | zero => intro copy ds _; simp [pickGo]
  | succ m ih =>
    intro copy ds hlen
    have hpos : 0 < copy.length := by omega
    have hlt : (draw ds).1 % copy.length < copy.length :=
      Nat.mod_lt _ hpos
    unfold pickGo
    rw [List.get?_eq_get hlt]
    have herase : (copy.eraseIdx ((draw ds).1 % copy.length)).length =
        copy.length - 1 := by
      rw [List.length_eraseIdx]
      rw [if_pos hlt]
    simp only [List.length_cons]
    rw [ih _ _ (by omega)]

theorem swapIdx_perm (l : List Character) (i j : Nat) :
    (swapIdx l i j).Perm l := by
  unfold swapIdx
  split
  next a b ha hb =>
    rw [List.get?_eq_some] at ha hb
    obtain ⟨hi, hae⟩ := ha
    obtain ⟨hj, hbe⟩ := hb
    have hia : l[i] = a := hae
    have hjb : l[j] = b := hbe
    have hj2 : j < (l.set i b).length := by simpa using hj
    rw [List.perm_iff_count]
    intro x
    rw [List.count_set a x (l.set i b) j hj2]
    rw [List.count_set b x l i hi]
    have hset : (l.set i b)[j] = b := by
      rw [List.getElem_set]
      split
      · rfl
      · exact hjb
    rw [hset, hia]
    by_cases hax : a = x
    · have hcnt : 0 < List.count x l := by
        rw [List.count_pos_iff]
        exact hax ▸ (List.mem_iff_get.mpr ⟨⟨i, hi⟩, hae⟩)
      by_cases hbx : b = x <;>
        simp only [hax, hbx, beq_iff_eq, if_pos, if_neg, beq_self_eq_true,
          reduceIte] <;> omega
    · by_cases hbx : b = x <;> simp [hax, hbx]
  next => exact List.Perm.refl l

theorem shuffleGo_perm (i : Nat) :
    ∀ l ds, (shuffleGo l i ds).Perm l := by
  induction i with
  | zero => intro l ds; exact List.Perm.refl l
  | succ k ih =>
    intro l ds
    unfold shuffleGo
    exact (ih _ _).trans (swapIdx_perm l _ _)

theorem shuffleArray_perm (l : List Character) (ds : List Nat) :
    (shuffleArray l ds).Perm l :=
  shuffleGo_perm _ l ds

/-! ## Characterizing `startNewOddRound` -/

theorem groupGet_sub {pool : List Character} {t : String} :
    ∀ c ∈ groupGet pool t, c ∈ pool := by
  intro c hc
  exact (groupGet_mem hc).1

theorem buildFilteredPoolForOdd_not_used {settings : Settings}
    {chars : List Character} {used : List String} {c : Character}
    (h : c ∈ buildFilteredPoolForOdd settings chars used) :
    getCharacterKey c ∉ used := by
  unfold buildFilteredPoolForOdd at h
  have hf := (dedupByKeyGo_sublist _ []).subset h
  rw [List.mem_filter] at hf
  have := hf.2
  rw [Bool.not_eq_eq_eq_not, Bool.not_true] at this
  exact (not_contains_iff _ _).mp this

/-- Stage spec: the shuffle-dedup-commit tail. -/
theorem oddFinish_spec {majorityChars : List Character}
    {oddChar : Character} {s s1 : OddGameState} {ds : List Nat}
    (hm3 : majorityChars.length = 3)
    (h : oddFinish majorityChars oddChar s ds = s1) :
    s1.usedCharacterKeys = s.usedCharacterKeys ∧
    s1.streak = s.streak ∧
    (s1.phase = .inRound →
      s1.options.length = 4 ∧
      (s1.options.map getCharacterKey).Nodup ∧
      s1.options.Perm (majorityChars ++ [oddChar]) ∧
      s1.oddId = some oddChar.id) := by
  unfold oddFinish at h
  dsimp only at h
  split at h
  · cases h; exact ⟨rfl, rfl, fun hph => by cases hph⟩
  next hlen =>
    cases h
    refine ⟨rfl, rfl, fun _ => ?_⟩
    have hperm0 := shuffleArray_perm (majorityChars ++ [oddChar]) ds
    have hlen0 : (shuffleArray (majorityChars ++ [oddChar])
        ds).length = 4 := by
      rw [hperm0.length_eq, List.length_append, hm3]
      rfl
    have hsub := (dedupByKey_spec (shuffleArray (majorityChars ++ [oddChar])
      ds)).1
    have hle := hsub.length_le
    have heq4 : (dedupByKey (shuffleArray (majorityChars ++ [oddChar])
        ds)).length = 4 := by omega
    have hdeq := hsub.eq_of_length (by omega)
    refine ⟨heq4, (dedupByKey_spec _).2, ?_, rfl⟩
    rw [hdeq]
    exact hperm0

/-- Stage spec: choosing and drawing the odd character. -/
theorem oddWithOddTier_spec {pool : List Character}
    {majorityChars : List Character} {oddTier : String}
    {s s1 : OddGameState} {ds : List Nat}
    (hm3 : majorityChars.length = 3)
    (h : oddWithOddTier pool majorityChars oddTier s ds = s1) :
    s1.usedCharacterKeys = s.usedCharacterKeys ∧
    s1.streak = s.streak ∧
    (s1.phase = .inRound →
      s1.options.length = 4 ∧
      (s1.options.map getCharacterKey).Nodup ∧
      ∃ oddC, oddC ∈ groupGet pool oddTier ∧
        s1.options.Perm (majorityChars ++ [oddC]) ∧
        s1.oddId = some oddC.id) := by
  unfold oddWithOddTier at h
  split at h
  · cases h; exact ⟨rfl, rfl, fun hph => by cases hph⟩
  next hne =>
    split at h
    · cases h; exact ⟨rfl, rfl, fun hph => by cases hph⟩
    next oddChar hoc =>
      obtain ⟨hu, hs, hcommit⟩ := oddFinish_spec hm3 h
      refine ⟨hu, hs, fun hph => ?_⟩
      obtain ⟨h4, hnd, hperm, hodd⟩ := hcommit hph
      exact ⟨h4, hnd, oddChar, List.get?_mem hoc, hperm, hodd⟩

/-- Stage spec: guarding the majority draw and choosing the odd tier. -/
theorem oddWithMajority_spec {pool : List Character}
    {tierKeys : List String} {majorityTier : String}
    {majorityChars : List Character} {s s1 : OddGameState}
    {ds : List Nat}
    (hm3 : majorityChars.length = 3)
    (h : oddWithMajority pool tierKeys majorityTier majorityChars s ds
      = s1) :
    s1.usedCharacterKeys = s.usedCharacterKeys ∧
    s1.streak = s.streak ∧
    (s1.phase = .inRound →
      s1.options.length = 4 ∧
      (s1.options.map getCharacterKey).Nodup ∧
      ∃ oddTier oddC, oddTier ≠ majorityTier ∧
        oddC ∈ groupGet pool oddTier ∧
        s1.options.Perm (majorityChars ++ [oddC]) ∧
        s1.oddId = some oddC.id) := by
  unfold oddWithMajority at h
  dsimp only at h
  split at h
  · cases h; exact ⟨rfl, rfl, fun hph => by cases hph⟩
  next hlen =>
    split at h
    · cases h; exact ⟨rfl, rfl, fun hph => by cases hph⟩
    next hot =>
      obtain ⟨hu, hs, hcommit⟩ := oddWithOddTier_spec hm3 h
      refine ⟨hu, hs, fun hph => ?_⟩
      obtain ⟨h4, hnd, oddC, hocg, hperm, hodd⟩ := hcommit hph
      rw [Bool.not_eq_true, List.isEmpty_eq_false] at hot
      have hpos : 0 < (tierKeys.filter (fun t =>
          t ≠ majorityTier && 0 < (groupGet pool t).length)).length := by
        cases hfe : tierKeys.filter (fun t =>
            t ≠ majorityTier && 0 < (groupGet pool t).length) with
        | nil => exact absurd hfe hot
        | cons a b => simp
      have hlt := Nat.mod_lt (draw ds).1 hpos
      have hget := List.get?_eq_get hlt
      rw [hget, Option.getD_some] at hocg
      have hmem := List.get_mem _ _ hlt
      rw [List.mem_filter] at hmem
      obtain ⟨hmem1, hmem2⟩ := hmem
      rw [Bool.and_eq_true] at hmem2
      have hne2 := of_decide_eq_true hmem2.1
      exact ⟨h4, hnd, _, oddC, hne2, hocg, hperm, hodd⟩

/-- Stage spec: guarding the majority group and drawing 3 distinct
characters from it. -/
theorem oddWithMajorityTier_spec {pool : List Character}
    {tierKeys : List String} {majorityTier : String}
    {s s1 : OddGameState} {ds : List Nat}
    (h : oddWithMajorityTier pool tierKeys majorityTier s ds = s1) :
    s1.usedCharacterKeys = s.usedCharacterKeys ∧
    s1.streak = s.streak ∧
    (s1.phase = .inRound →
      s1.options.length = 4 ∧
      (s1.options.map getCharacterKey).Nodup ∧
      ∃ majorityChars oddTier oddC,
        majorityChars.length = 3 ∧
        (∀ m ∈ majorityChars, m ∈ groupGet pool majorityTier) ∧
        oddTier ≠ majorityTier ∧
        oddC ∈ groupGet pool oddTier ∧
        s1.options.Perm (majorityChars ++ [oddC]) ∧
        s1.oddId = some oddC.id) := by
  unfold oddWithMajorityTier at h
  split at h
  · cases h; exact ⟨rfl, rfl, fun hph => by cases hph⟩
  next hg3 =>
    split at h
    · cases h; exact ⟨rfl, rfl, fun hph => by cases hph⟩
    next majorityChars hmc =>
      have hg3le : 3 ≤ (groupGet pool majorityTier).length := by omega
      have hpick : (pickRandomDistinct (groupGet pool majorityTier) 3
          ds).1 = some ((pickGo 3 (groupGet pool majorityTier) ds).1) := by
        unfold pickRandomDistinct
        rw [if_neg (by omega)]
      rw [hpick] at hmc
      have hmceq : majorityChars =
          (pickGo 3 (groupGet pool majorityTier) ds).1 :=
        (Option.some_inj.mp hmc).symm
      have hm3 : majorityChars.length = 3 := by
        rw [hmceq]
        exact pickGo_length 3 _ _ hg3le
      obtain ⟨hu, hs, hcommit⟩ := oddWithMajority_spec hm3 h
      refine ⟨hu, hs, fun hph => ?_⟩
      obtain ⟨h4, hnd, oddTier, oddC, hne, hocg, hperm, hodd⟩ :=
        hcommit hph
      refine ⟨h4, hnd, majorityChars, oddTier, oddC, hm3, ?_, hne,
        hocg, hperm, hodd⟩
      intro m hm
      rw [hmceq] at hm
      exact pickGo_subset 3 _ _ m hm

/-- Stage spec: selecting the majority tier. -/
theorem oddSelectMajority_spec {pool : List Character}
    {tierKeys : List String} {s s1 : OddGameState} {ds : List Nat}
    (h : oddSelectMajority pool tierKeys s ds = s1) :
    s1.usedCharacterKeys = s.usedCharacterKeys ∧
    s1.streak = s.streak ∧
    (s1.phase = .inRound →
      s1.options.length = 4 ∧
      (s1.options.map getCharacterKey).Nodup ∧
      ∃ majorityTier majorityChars oddTier oddC,
        majorityChars.length = 3 ∧
        (∀ m ∈ majorityChars, m ∈ groupGet pool majorityTier) ∧
        oddTier ≠ majorityTier ∧
        oddC ∈ groupGet pool oddTier ∧
        s1.options.Perm (majorityChars ++ [oddC]) ∧
        s1.oddId = some oddC.id) := by
  unfold oddSelectMajority at h
  dsimp only at h
  split at h
  · cases h; exact ⟨rfl, rfl, fun hph => by cases hph⟩
  next hcmt =>
    obtain ⟨hu, hs, hcommit⟩ := oddWithMajorityTier_spec h
    refine ⟨hu, hs, fun hph => ?_⟩
    obtain ⟨h4, hnd, majorityChars, oddTier, oddC, hrest⟩ := hcommit hph
    exact ⟨h4, hnd, _, majorityChars, oddTier, oddC, hrest⟩

/-- What `startNewOddRound` guarantees: run-scoped fields untouched
and, on commit, four identity-distinct options drawn from the filtered
pool, three sharing the majority tier and exactly one — the one `oddId`
names — from a different tier. -/
theorem startNewOddRound_spec {settings : Settings}
    {chars : List Character} {s s1 : OddGameState} {ds : List Nat}
    (h : startNewOddRound settings chars s ds = s1) :
    s1.usedCharacterKeys = s.usedCharacterKeys ∧
    s1.streak = s.streak ∧
    (s1.phase = .inRound →
      s1.options.length = 4 ∧
      (s1.options.map getCharacterKey).Nodup ∧
      (∀ c ∈ s1.options,
        c ∈ buildFilteredPoolForOdd settings chars
          s.usedCharacterKeys) ∧
      ∃ t oddC,
        s1.oddId = some oddC.id ∧
        oddC ∈ s1.options ∧
        oddC.highestTier ≠ some t ∧
        (s1.options.filter
          (fun c => c.highestTier == some t)).length = 3 ∧
        s1.options.filter
          (fun c => !(c.highestTier == some t)) = [oddC]) := by
  unfold startNewOddRound at h
  dsimp only at h
  split at h
  · cases h; exact ⟨rfl, rfl, fun hph => by cases hph⟩
  next hpool =>
    split at h
    · cases h; exact ⟨rfl, rfl, fun hph => by cases hph⟩
    next htk =>
      obtain ⟨hu, hs, hcommit⟩ := oddSelectMajority_spec h
      refine ⟨hu, hs, fun hph => ?_⟩
      obtain ⟨h4, hnd, majorityTier, majorityChars, oddTier, oddC,
        hm3, hmg, hne, hocg, hperm, hodd⟩ := hcommit hph
      have hmtier : ∀ m ∈ majorityChars,
          m.highestTier = some majorityTier := by
        intro m hm
        exact (groupGet_mem (hmg m hm)).2
      have hotier : oddC.highestTier = some oddTier :=
        (groupGet_mem hocg).2
      have hones : oddC.highestTier ≠ some majorityTier := by
        rw [hotier]
        intro hcon
        exact hne (Option.some_inj.mp hcon)
      refine ⟨h4, hnd, ?_, majorityTier, oddC, hodd, ?_, hones, ?_, ?_⟩
      · intro c hc
        have hcm := hperm.mem_iff.mp hc
        rcases List.mem_append.mp hcm with hcm | hcm
        · exact (groupGet_mem (hmg c hcm)).1
        · rw [List.mem_singleton.mp hcm]
          exact (groupGet_mem hocg).1
      · rw [hperm.mem_iff]
        exact List.mem_append.mpr (Or.inr (List.mem_singleton_self _))
      · have hfilter := hperm.filter
          (fun c => c.highestTier == some majorityTier)
        rw [hfilter.length_eq, List.filter_append]
        have hfm : majorityChars.filter
            (fun c => c.highestTier == some majorityTier) =
            majorityChars := by
          rw [List.filter_eq_self]
          intro m hm
          rw [hmtier m hm]
          exact beq_self_eq_true _
        have hfo : [oddC].filter
            (fun c => c.highestTier == some majorityTier) = [] := by
          have hbeq : (oddC.highestTier == some majorityTier) = false :=
            beq_eq_false_iff_ne.mpr hones
          simp [List.filter_cons, hbeq]
        rw [hfm, hfo, List.length_append, hm3]
        rfl
      · have hfilter := hperm.filter
          (fun c => !(c.highestTier == some majorityTier))
        rw [List.filter_append] at hfilter
        have hfm : majorityChars.filter
            (fun c => !(c.highestTier == some majorityTier)) = [] := by
          rw [List.filter_eq_nil_iff]
          intro m hm
          rw [hmtier m hm]
          simp
        have hfo : [oddC].filter
            (fun c => !(c.highestTier == some majorityTier)) =
            [oddC] := by
          rw [List.filter_eq_self]
          intro c hc
          rw [List.mem_singleton.mp hc, hotier]
          simpa using fun hcon => hne (Option.some_inj.mp hcon)
        rw [hfm, hfo, List.nil_append] at hfilter
        exact List.perm_singleton.mp hfilter

/-! ## The no-repeat invariant -/

theorem classicInv_init : ClassicInv (initGameState, []) := by
  refine ⟨?_, ?_, ?_⟩
  · intro ks hks
    simp at hks
  · intro _ l r hpair
    cases hpair
  · exact List.Pairwise.nil

theorem classicInv_start {settings : Settings} {chars : List Character}
    {s s' : GameState} {log : List (List String)} {ds : List Nat}
    (hInv : ClassicInv (s, log))
    (hst : startNewRound settings chars s ds = some s') :
    ClassicInv (s', log) := by
  obtain ⟨hused, _, _, hcommit⟩ := startNewRound_spec hst
  obtain ⟨hI1, hI2, hI3⟩ := hInv
  refine ⟨?_, ?_, hI3⟩
  · intro ks hks k hk
    rw [hused]
    exact hI1 ks hks k hk
  · intro hph l r hpair
    obtain ⟨l0, r0, _, _, hp0, _, _, _, _, _, _, _, hl0, hr0, _⟩ :=
      hcommit hph
    rw [hp0] at hpair
    obtain ⟨rfl, rfl⟩ := Prod.mk.injEq .. ▸ Option.some_inj.mp hpair
    rw [hused]
    exact ⟨hl0, hr0⟩

theorem classicStep_inv {settings : Settings} {chars : List Character}
    {p p1 : GameState × List (List String)} {op : ClassicOp}
    (hInv : ClassicInv p) (h : classicStep settings chars p op = some p1) :
    ClassicInv p1 := by
  cases op with
  | start ds =>
    simp only [classicStep, Option.map_eq_some'] at h
    obtain ⟨s', hst, hp1⟩ := h
    cases hp1
    exact classicInv_start hInv hst
  | restart ds =>
    simp only [classicStep, Option.map_eq_some'] at h
    obtain ⟨s', hst, hp1⟩ := h
    cases hp1
    unfold restartGame at hst
    exact classicInv_start classicInv_init hst
  | choose selectedId =>
    simp only [classicStep] at h
    split at h
    next res s1 rec l r heq1 heq2 =>
      cases h
      obtain ⟨hI1, hI2, hI3⟩ := hInv
      obtain ⟨hph, l0, r0, hp0, _, _, hused1, hcases⟩ :=
        handleChoice_eq_some heq1
      rw [heq2] at hp0
      obtain ⟨rfl, rfl⟩ := Prod.mk.injEq .. ▸ Option.some_inj.mp hp0
      obtain ⟨hfl, hfr⟩ := hI2 hph l r heq2
      have hph1 : s1.phase ≠ .inRound := by
        rcases hcases with ⟨_, hph1, _⟩ | ⟨_, hph1, _⟩ <;>
          rw [hph1] <;> intro hcon <;> cases hcon
      refine ⟨?_, ?_, ?_⟩
      · intro ks hks k hk
        rw [hused1]
        rcases List.mem_append.mp hks with hks | hks
        · rw [mem_addKey, mem_addKey]
          exact Or.inr (Or.inr (hI1 ks hks k hk))
        · rw [List.mem_singleton.mp hks] at hk
          rcases List.mem_cons.mp hk with rfl | hk
          · rw [mem_addKey, mem_addKey]
            exact Or.inr (Or.inl rfl)
          · rw [List.mem_singleton.mp hk, mem_addKey]
            exact Or.inl rfl
      · intro hcon
        exact absurd hcon hph1
      · rw [List.pairwise_append]
        refine ⟨hI3, List.pairwise_singleton _ _, ?_⟩
        intro ks hks e he k hk
        rw [List.mem_singleton.mp he]
        have hkused := hI1 ks hks k hk
        intro hcon
        rcases List.mem_cons.mp hcon with rfl | hcon
        · exact hfl hkused
        · rw [List.mem_singleton.mp hcon] at hkused
          exact hfr hkused
    next =>
      rename_i fst1 s1 snd1 heq hno
      cases h
      cases fst1 with
      | none =>
        have hfull := handleChoice_none
          (show (handleChoice p.1 selectedId).1 = none by rw [heq])
        rw [heq] at hfull
        have hs1 : s1 = p.1 := congrArg (fun t => t.2.1) hfull
        rw [hs1]
        exact hInv
      | some res =>
        obtain ⟨_, l, r, hp0, _⟩ := handleChoice_eq_some
          (show handleChoice p.1 selectedId = (some res, s1, snd1) by
            rw [heq])
        exact absurd hp0 (hno res l r rfl)

theorem classicRunFrom_inv {settings : Settings}
    {chars : List Character} :
    ∀ (ops : List ClassicOp) (p p1 : GameState × List (List String)),
      ClassicInv p → classicRunFrom settings chars p ops = some p1 →
      ClassicInv p1 := by
  intro ops
  induction ops with
  | nil =>
    intro p p1 hInv h
    cases h
    exact hInv
  | cons op ops ih =>
    intro p p1 hInv h
    unfold classicRunFrom at h
    split at h
    · cases h
    next p2 heq => exact ih p2 p1 (classicStep_inv hInv heq) h

theorem classicInv_noRepeat {p : GameState × List (List String)}
    (hInv : ClassicInv p) : ClassicNoRepeat p := by
  obtain ⟨hI1, hI2, hI3⟩ := hInv
  refine ⟨hI3, ?_⟩
  intro hph l r hpair ks hks
  obtain ⟨hfl, hfr⟩ := hI2 hph l r hpair
  exact ⟨fun hcon => hfl (hI1 ks hks _ hcon),
         fun hcon => hfr (hI1 ks hks _ hcon)⟩

theorem oddInv_init : OddInv (initOddGameState, []) := by
  refine ⟨?_, ?_, List.Pairwise.nil⟩
  · intro ks hks
    simp at hks
  · intro _ c hc
    simp [initOddGameState] at hc

theorem oddInv_start {settings : Settings} {chars : List Character}
    {s s' : OddGameState} {log : List (List String)} {ds : List Nat}
    (hInv : OddInv (s, log))
    (hst : startNewOddRound settings chars s ds = s') :
    OddInv (s', log) := by
  obtain ⟨hused, _, hcommit⟩ := startNewOddRound_spec hst
  obtain ⟨hI1, hI2, hI3⟩ := hInv
  refine ⟨?_, ?_, hI3⟩
  · intro ks hks k hk
    rw [hused]
    exact hI1 ks hks k hk
  · intro hph c hc
    obtain ⟨_, _, hpool, _⟩ := hcommit hph
    rw [hused]
    exact buildFilteredPoolForOdd_not_used (hpool c hc)

theorem oddStep_inv {settings : Settings} {chars : List Character}
    {p p1 : OddGameState × List (List String)} {op : OddOp}
    (hInv : OddInv p) (h : oddStep settings chars p op = p1) :
    OddInv p1 := by
  cases op with
  | start ds =>
    cases h
    exact oddInv_start hInv rfl
  | restart ds =>
    cases h
    exact oddInv_start oddInv_init rfl
  | choose selectedId =>
    simp only [oddStep] at h
    split at h
    next res s1 rec heq =>
      cases h
      obtain ⟨hI1, hI2, hI3⟩ := hInv
      obtain ⟨hph, _, _, _, hused1, _, hcases⟩ :=
        handleOddChoice_eq_some heq
      have hfresh := hI2 hph
      have hph1 : s1.phase ≠ .inRound := by
        rcases hcases with ⟨_, hph1, _⟩ | ⟨_, hph1, _⟩ <;>
          rw [hph1] <;> intro hcon <;> cases hcon
      refine ⟨?_, ?_, ?_⟩
      · intro ks hks k hk
        rw [hused1]
        rcases List.mem_append.mp hks with hks | hks
        · exact (mem_foldl_addKey _ _).1 k (hI1 ks hks k hk)
        · rw [List.mem_singleton.mp hks] at hk
          rw [List.mem_map] at hk
          obtain ⟨c, hc, rfl⟩ := hk
          exact (mem_foldl_addKey _ _).2 c hc
      · intro hcon
        exact absurd hcon hph1
      · rw [List.pairwise_append]
        refine ⟨hI3, List.pairwise_singleton _ _, ?_⟩
        intro ks hks e he k hk
        rw [List.mem_singleton.mp he]
        have hkused := hI1 ks hks k hk
        intro hcon
        rw [List.mem_map] at hcon
        obtain ⟨c, hc, rfl⟩ := hcon
        exact hfresh c hc hkused
    next s1 rec heq =>
      cases h
      have hfull := handleOddChoice_none (by rw [heq])
      rw [heq] at hfull
      have hs1 : s1 = p.1 := congrArg (fun t => t.2.1) hfull
      rw [hs1]
      exact hInv

theorem oddRunFrom_inv (settings : Settings) (chars : List Character) :
    ∀ (ops : List OddOp) (p : OddGameState × List (List String)),
      OddInv p → OddInv (oddRunFrom settings chars p ops) := by
  intro ops
  induction ops with
  | nil => intro p hInv; exact hInv
  | cons op ops ih =>
    intro p hInv
    exact ih _ (oddStep_inv hInv rfl)

theorem oddInv_noRepeat {p : OddGameState × List (List String)}
    (hInv : OddInv p) : OddNoRepeat p := by
  obtain ⟨hI1, hI2, hI3⟩ := hInv
  refine ⟨hI3, ?_⟩
  intro hph ks hks c hc
  exact fun hcon => hI2 hph c hc (hI1 ks hks _ hcon)

/-! ## Exhausted-pool helpers -/

theorem modeFilteredPool_sub {settings : Settings}
    {chars : List Character} :
    ∀ c ∈ modeFilteredPool settings chars, c ∈ chars := by
  intro c hc
  unfold modeFilteredPool at hc
  dsimp only at hc
  split at hc
  · split at hc
    · exact (List.mem_filter.mp (List.mem_filter.mp hc).1).1
    · exact (List.mem_filter.mp hc).1
  · split at hc
    · exact (List.mem_filter.mp hc).1
    · exact hc

theorem dedupListGo_nodup (l : List String) :
    ∀ seen, (dedupListGo seen l).Nodup ∧
      ∀ x ∈ dedupListGo seen l, x ∉ seen := by
  induction l with
  | nil => intro seen; simp [dedupListGo]
  | cons x xs ih =>
    intro seen
    unfold dedupListGo
    split
    next hseen => exact ih seen
    next hseen =>
      obtain ⟨ihn, ihs⟩ := ih (x :: seen)
      constructor
      · rw [List.nodup_cons]
        refine ⟨?_, ihn⟩
        intro hmem
        exact ihs x hmem (List.mem_cons_self _ _)
      · intro y hy
        rcases List.mem_cons.mp hy with rfl | hy
        · exact (not_contains_iff _ _).mp (Bool.not_eq_true _ ▸ hseen)
        · exact fun hmem => ihs y hy (List.mem_cons_of_mem _ hmem)

theorem dedupList_nodup (l : List String) : (dedupList l).Nodup :=
  (dedupListGo_nodup l []).1

theorem groupGet_nonempty_mem {pool : List Character} {t : String}
    (h : ¬(groupGet pool t).isEmpty = true) :
    ∃ c, c ∈ pool ∧ c.highestTier = some t := by
  rw [Bool.not_eq_true, List.isEmpty_eq_false] at h
  cases hg : groupGet pool t with
  | nil => exact absurd hg h
  | cons c rest =>
    have : c ∈ groupGet pool t := by rw [hg]; exact List.mem_cons_self _ _
    exact ⟨c, groupGet_mem this⟩

theorem candidateLoop_cons_mem {vh : Bool} {t tB : String}
    {rest : List String} (hB : tB ∈ rest) (hk : vhKeep vh t tB = true) :
    (t, tB) ∈ candidateLoop vh (t :: rest) := by
  unfold candidateLoop
  rw [List.mem_append]
  exact Or.inl (List.mem_map.mpr ⟨tB, List.mem_filter.mpr ⟨hB, hk⟩, rfl⟩)

theorem pickCharacterFromGroup_none {used : List String}
    {group : List Character}
    (h : ∀ c ∈ group, getCharacterKey c ∈ used) (d : Nat) :
    pickCharacterFromGroup used group d = none := by
  unfold pickCharacterFromGroup
  split
  · rfl
  next hg =>
    have hav : group.filter
        (fun c => !(used.contains (getCharacterKey c))) = [] := by
      rw [List.filter_eq_nil_iff]
      intro c hc
      rw [(contains_iff _ _).mpr (h c hc)]
      simp
    rw [hav]
    rfl

/-- The only way `startNewRound` can return `none` (model of the JS
`TypeError`): normal difficulty, at least two populated tiers, yet an
empty candidate-pair list. -/
theorem startNewRound_none {settings : Settings} {chars : List Character}
    {s : GameState} {ds : List Nat}
    (h : startNewRound settings chars s ds = none) :
    settings.veryHardMode = false ∧
    2 ≤ (classicTiers settings chars).length ∧
    candidateLoop settings.veryHardMode (classicTiers settings chars)
      = [] := by
  simp only [startNewRound] at h
  split at h
  · cases h
  next hlen =>
    split at h
    · cases h
    next hvh =>
      split at h
      next hempty =>
        rw [List.isEmpty_iff] at hempty
        have hvhf : settings.veryHardMode = false := by
          by_contra hcon
          rw [Bool.not_eq_false] at hcon
          exact hvh ⟨hcon, by rw [hempty]; rfl⟩
        exact ⟨hvhf, by omega, hempty⟩
      · cases h

theorem vhKeep_normal {t1 t2 : String}
    (hne : getTierIndex t1 ≠ getTierIndex t2) :
    vhKeep false t1 t2 = true := by
  unfold vhKeep
  simp only [Bool.false_eq_true, if_false, decide_eq_true_eq]
  exact Int.natAbs_pos.mpr (sub_ne_zero.mpr hne)

theorem classicTiers_mem {settings : Settings} {chars : List Character}
    {t : String} (h : t ∈ classicTiers settings chars) :
    ∃ c, c ∈ modeFilteredPool settings chars ∧
      c.highestTier = some t := by
  unfold classicTiers at h
  rw [List.mem_filter] at h
  apply groupGet_nonempty_mem
  simpa using h.2

theorem classicTiers_nodup (settings : Settings)
    (chars : List Character) : (classicTiers settings chars).Nodup :=
  (dedupList_nodup _).filter _

theorem attemptLoop_fail {pool : List Character} {used : List String}
    {cps : List (String × String)} {s : GameState}
    (h : ∀ t d, pickCharacterFromGroup used (groupGet pool t) d = none) :
    ∀ fuel ds, attemptLoop pool used cps s fuel ds =
      { s with phase := .error } := by
  intro fuel
  induction fuel with
  | zero => intro ds; rfl
  | succ n ih =>
    intro ds
    unfold attemptLoop
    rw [h _ _, h _ _]
    exact ih _

/-! ## Claims -/

/-- C1: for every round committed by the Classic engine while
`veryHardMode` is enabled — from any reachable state, since the state
is universally quantified — the tier labels of the committed pair are
at ladder distance exactly 3 (not merely ≥ 3). -/
theorem claim_C1_veryhard_exact_distance3
    (settings : Settings) (chars : List Character) (s s1 : GameState)
    (ds : List Nat) (hvh : settings.veryHardMode = true)
    (h : startNewRound settings chars s ds = some s1)
    (hph : s1.phase = Phase.inRound) :
    ∃ l r tA tB, s1.currentPair = some (l, r) ∧
      l.highestTier = some tA ∧ r.highestTier = some tB ∧
      (getTierIndex tA - getTierIndex tB).natAbs = 3 := by
  obtain ⟨_, _, _, hcommit⟩ := startNewRound_spec h
  obtain ⟨l, r, tA, tB, hpair, hlt, hrt, _, _, _, _, _, _, _, hdist⟩ :=
    hcommit hph
  exact ⟨l, r, tA, tB, hpair, hlt, hrt, hdist hvh⟩

/-- C1 witness: a concrete Very-Hard commit at ladder distance 3. -/
theorem claim_C1_veryhard_exact_distance3_witness :
    (⟨true, false, [], false⟩ : Settings).veryHardMode = true ∧
    startNewRound ⟨true, false, [], false⟩
      [⟨"a", "A", "OA", some "High 1-A"⟩,
       ⟨"b", "B", "OB", some "High 1-B"⟩]
      initGameState [0, 0, 0] =
      some ⟨Phase.inRound,
        some (⟨"a", "A", "OA", some "High 1-A"⟩,
              ⟨"b", "B", "OB", some "High 1-B"⟩),
        some "a", 0, []⟩ ∧
    (∃ l r tA tB,
      (⟨Phase.inRound,
        some (⟨"a", "A", "OA", some "High 1-A"⟩,
              ⟨"b", "B", "OB", some "High 1-B"⟩),
        some "a", 0, []⟩ : GameState).currentPair = some (l, r) ∧
      l.highestTier = some tA ∧ r.highestTier = some tB ∧
      (getTierIndex tA - getTierIndex tB).natAbs = 3) :=
  ⟨rfl, by decide,
   claim_C1_veryhard_exact_distance3 ⟨true, false, [], false⟩
     [⟨"a", "A", "OA", some "High 1-A"⟩,
      ⟨"b", "B", "OB", some "High 1-B"⟩]
     initGameState _ [0, 0, 0] rfl (by decide) rfl⟩

/-- C5: `getStrongerCharacter` on two ranked characters returns one of
its two inputs (never a third value); it returns `none` exactly when
some input is unranked (`indexOf < 0`); and a `Tier 0` character beats
a `1-A` character — the lower ladder index wins. -/
theorem claim_C5_compare_strength_det (a b : Character) :
    (0 ≤ tierIndexOpt a.highestTier → 0 ≤ tierIndexOpt b.highestTier →
      getStrongerCharacter a b = some a ∨
      getStrongerCharacter a b = some b) ∧
    (getStrongerCharacter a b = none ↔
      tierIndexOpt a.highestTier < 0 ∨ tierIndexOpt b.highestTier < 0) ∧
    (a.highestTier = some "Tier 0" → b.highestTier = some "1-A" →
      getStrongerCharacter a b = some a) := by
  refine ⟨?_, getStrongerCharacter_none_iff a b, ?_⟩
  · intro hA hB
    unfold getStrongerCharacter
    rw [if_neg (by push_neg; exact ⟨hA, hB⟩)]
    split
    · exact Or.inl rfl
    · exact Or.inr rfl
  · intro ha hb
    have h0 : getTierIndex "Tier 0" = 0 := by decide
    have h2 : getTierIndex "1-A" = 2 := by decide
    unfold getStrongerCharacter tierIndexOpt
    rw [ha, hb]
    dsimp only
    rw [h0, h2]
    norm_num

/-- C5 witness: concrete ranked characters. -/
theorem claim_C5_compare_strength_det_witness :
    getStrongerCharacter ⟨"x", "X", "O", some "Tier 0"⟩
        ⟨"y", "Y", "O", some "1-A"⟩ =
      some ⟨"x", "X", "O", some "Tier 0"⟩ ∧
    (getStrongerCharacter ⟨"x", "X", "O", some "Tier 0"⟩
        ⟨"y", "Y", "O", some "1-A"⟩ =
        some ⟨"x", "X", "O", some "Tier 0"⟩ ∨
      getStrongerCharacter ⟨"x", "X", "O", some "Tier 0"⟩
        ⟨"y", "Y", "O", some "1-A"⟩ =
        some ⟨"y", "Y", "O", some "1-A"⟩) :=
  ⟨(claim_C5_compare_strength_det _ _).2.2 rfl rfl,
   (claim_C5_compare_strength_det ⟨"x", "X", "O", some "Tier 0"⟩
     ⟨"y", "Y", "O", some "1-A"⟩).1 (by decide) (by decide)⟩

/-- C10: on a tie — both characters' tier labels at the same
non-negative ladder index — `getStrongerCharacter` returns its second
argument, never `none`: the tie-breaking direction is fixed. -/
theorem claim_C10_tie_returns_second (a b : Character)
    (heq : tierIndexOpt a.highestTier = tierIndexOpt b.highestTier)
    (hge : 0 ≤ tierIndexOpt a.highestTier) :
    getStrongerCharacter a b = some b := by
  unfold getStrongerCharacter
  rw [if_neg (by omega), if_neg (by omega)]

/-- C10 witness: two characters on the same tier. -/
theorem claim_C10_tie_returns_second_witness :
    getStrongerCharacter ⟨"x", "X", "O", some "1-A"⟩
        ⟨"y", "Y", "O", some "1-A"⟩ =
      some ⟨"y", "Y", "O", some "1-A"⟩ :=
  claim_C10_tie_returns_second _ _ (by decide) (by decide)

theorem runRecord_bestStreak (calls : List (Bool × Nat)) :
    ∀ st : Stats, (runRecord st calls).bestStreak =
      max st.bestStreak (maxCorrectStreak calls) := by
  induction calls with
  | nil => intro st; simp [runRecord, maxCorrectStreak]
  | cons ck rest ih =>
    intro st
    have h1 : runRecord st (ck :: rest) =
        runRecord (recordRound st ck.1 ck.2) rest := rfl
    rw [h1, ih]
    rcases ck with ⟨c, k⟩
    cases c
    · have hm : maxCorrectStreak ((false, k) :: rest) =
          maxCorrectStreak rest := by
        simp [maxCorrectStreak, List.filter_cons]
      rw [hm]
      rfl
    · have hm : maxCorrectStreak ((true, k) :: rest) =
          max k (maxCorrectStreak rest) := by
        simp [maxCorrectStreak, List.filter_cons]
      rw [hm]
      rw [show recordRound st true k = if k > st.bestStreak then
          ⟨st.totalRounds + 1, st.totalCorrectRounds + 1, k⟩ else
          ⟨st.totalRounds + 1, st.totalCorrectRounds + 1, st.bestStreak⟩
        from rfl]
      split
      next h =>
        show max k (maxCorrectStreak rest) =
          max st.bestStreak (max k (maxCorrectStreak rest))
        omega
      next h =>
        show max st.bestStreak (maxCorrectStreak rest) =
          max st.bestStreak (max k (maxCorrectStreak rest))
        omega

/-- C7: `recordRound` adds exactly 1 to `totalRounds`, adds 1 to
`totalCorrectRounds` iff `correct`, and never lowers `bestStreak`;
after any sequence of calls `bestStreak` is the larger of its initial
value and the greatest `streakAfterRound` passed on a correct call. -/
theorem claim_C7_stats_accumulator :
    (∀ (st : Stats) (correct : Bool) (streakAfterRound : Nat),
      (recordRound st correct streakAfterRound).totalRounds =
        st.totalRounds + 1 ∧
      ((recordRound st correct streakAfterRound).totalCorrectRounds =
        st.totalCorrectRounds + if correct = true then 1 else 0) ∧
      st.bestStreak ≤
        (recordRound st correct streakAfterRound).bestStreak) ∧
    (∀ (st : Stats) (calls : List (Bool × Nat)),
      st.bestStreak ≤ (runRecord st calls).bestStreak ∧
      (runRecord st calls).bestStreak =
        max st.bestStreak (maxCorrectStreak calls)) := by
  constructor
  · intro st correct k
    cases correct
    · exact ⟨rfl, rfl, Nat.le_refl _⟩
    · rw [show recordRound st true k = if k > st.bestStreak then
          ⟨st.totalRounds + 1, st.totalCorrectRounds + 1, k⟩ else
          ⟨st.totalRounds + 1, st.totalCorrectRounds + 1, st.bestStreak⟩
        from rfl]
      refine ⟨?_, ?_, ?_⟩
      · split <;> rfl
      · split <;> rfl
      · split
        next h => exact Nat.le_of_lt h
        next => exact Nat.le_refl _
  · intro st calls
    have h := runRecord_bestStreak calls st
    exact ⟨h ▸ Nat.le_max_left _ _, h⟩

/-- C6: in both engines, a valid correct answer sets the run streak to
exactly its prior value plus 1 — in the engine state and in the
returned result — and a valid incorrect answer sets it to exactly 0. -/
theorem claim_C6_streak_update :
    (∀ (s : GameState) (selectedId : String) (res : ChoiceResult)
      (s1 : GameState) (rec : Option (Bool × Nat)),
      handleChoice s selectedId = (some res, s1, rec) →
      (res.correct = true →
        s1.streak = s.streak + 1 ∧ res.streak = s.streak + 1) ∧
      (res.correct = false → s1.streak = 0 ∧ res.streak = 0)) ∧
    (∀ (s : OddGameState) (selectedId : String) (res : OddChoiceResult)
      (s1 : OddGameState) (rec : Option (Bool × Nat)),
      handleOddChoice s selectedId = (some res, s1, rec) →
      (res.correct = true →
        s1.streak = s.streak + 1 ∧ res.streak = s.streak + 1) ∧
      (res.correct = false → s1.streak = 0 ∧ res.streak = 0)) := by
  constructor
  · intro s selectedId res s1 rec h
    obtain ⟨_, _, _, _, _, _, _, hcases⟩ := handleChoice_eq_some h
    rcases hcases with ⟨hc, _, hs1, hres, _⟩ | ⟨hc, _, hs1, hres, _⟩
    · refine ⟨fun _ => ⟨hs1, hres⟩, fun hfc => ?_⟩
      rw [hc] at hfc
      cases hfc
    · refine ⟨fun htc => ?_, fun _ => ⟨hs1, hres⟩⟩
      rw [hc] at htc
      cases htc
  · intro s selectedId res s1 rec h
    obtain ⟨_, _, _, _, _, _, hcases⟩ := handleOddChoice_eq_some h
    rcases hcases with ⟨hc, _, hs1, hres, _⟩ | ⟨hc, _, hs1, hres, _⟩
    · refine ⟨fun _ => ⟨hs1, hres⟩, fun hfc => ?_⟩
      rw [hc] at hfc
      cases hfc
    · refine ⟨fun htc => ?_, fun _ => ⟨hs1, hres⟩⟩
      rw [hc] at htc
      cases htc

/-- C6 witness: a correct Classic resolution at a concrete state with
prior streak 1. -/
theorem claim_C6_streak_update_witness :
    handleChoice
        ⟨Phase.inRound,
          some (⟨"a", "A", "OA", some "High 1-A"⟩,
                ⟨"b", "B", "OB", some "High 1-B"⟩),
          some "a", 1, []⟩ "a" =
      (some ⟨true, "a", some "a", 2, Phase.afterCorrect⟩,
       ⟨Phase.afterCorrect,
        some (⟨"a", "A", "OA", some "High 1-A"⟩,
              ⟨"b", "B", "OB", some "High 1-B"⟩),
        some "a", 2, ["B::OB", "A::OA"]⟩,
       some (true, 2)) ∧
    (((⟨true, "a", some "a", 2, Phase.afterCorrect⟩ :
        ChoiceResult).correct = true →
      (⟨Phase.afterCorrect,
        some (⟨"a", "A", "OA", some "High 1-A"⟩,
              ⟨"b", "B", "OB", some "High 1-B"⟩),
        some "a", 2, ["B::OB", "A::OA"]⟩ : GameState).streak = 1 + 1 ∧
      (⟨true, "a", some "a", 2, Phase.afterCorrect⟩ :
        ChoiceResult).streak = 1 + 1) ∧
     ((⟨true, "a", some "a", 2, Phase.afterCorrect⟩ :
        ChoiceResult).correct = false →
      (⟨Phase.afterCorrect,
        some (⟨"a", "A", "OA", some "High 1-A"⟩,
              ⟨"b", "B", "OB", some "High 1-B"⟩),
        some "a", 2, ["B::OB", "A::OA"]⟩ : GameState).streak = 0 ∧
      (⟨true, "a", some "a", 2, Phase.afterCorrect⟩ :
        ChoiceResult).streak = 0)) :=
  ⟨by decide,
   claim_C6_streak_update.1
     ⟨Phase.inRound,
       some (⟨"a", "A", "OA", some "High 1-A"⟩,
             ⟨"b", "B", "OB", some "High 1-B"⟩),
       some "a", 1, []⟩ "a"
     ⟨true, "a", some "a", 2, Phase.afterCorrect⟩
     ⟨Phase.afterCorrect,
       some (⟨"a", "A", "OA", some "High 1-A"⟩,
             ⟨"b", "B", "OB", some "High 1-B"⟩),
       some "a", 2, ["B::OB", "A::OA"]⟩
     (some (true, 2)) (by decide)⟩

/-- C4 counterexample: a Classic round resolved incorrectly from
streak 1 passes `streakAfterRound = 1` (the pre-reset value) to
`recordRound`, while the post-update streak is 0 — so the argument is
not the post-update value, contrary to the claim. -/
theorem claim_C4_counterexample :
    (handleChoice
        ⟨Phase.inRound,
          some (⟨"a", "A", "OA", some "High 1-A"⟩,
                ⟨"b", "B", "OB", some "High 1-B"⟩),
          some "a", 1, []⟩ "b").2.2 = some (false, 1) ∧
    (handleChoice
        ⟨Phase.inRound,
          some (⟨"a", "A", "OA", some "High 1-A"⟩,
                ⟨"b", "B", "OB", some "High 1-B"⟩),
          some "a", 1, []⟩ "b").2.1.streak = 0 ∧
    some ((false : Bool), (1 : Nat)) ≠ some ((false : Bool), (0 : Nat))
    := by
  refine ⟨by decide, by decide, by decide⟩

/-- C4 (amended): the `streakAfterRound` argument passed to
`recordRound` is the post-update streak (prior + 1) on a correct
answer, but on an incorrect answer it is the pre-reset prior streak —
the reset to 0 happens after the `recordRound` call — in both
engines.  (`recordRound` ignores the argument when `correct` is
false, so lifetime stats are unaffected.) -/
theorem claim_C4_amended_recorded_streak :
    (∀ (s : GameState) (selectedId : String) (res : ChoiceResult)
      (s1 : GameState) (rec : Option (Bool × Nat)),
      handleChoice s selectedId = (some res, s1, rec) →
      (res.correct = true → rec = some (true, s.streak + 1)) ∧
      (res.correct = false → rec = some (false, s.streak))) ∧
    (∀ (s : OddGameState) (selectedId : String) (res : OddChoiceResult)
      (s1 : OddGameState) (rec : Option (Bool × Nat)),
      handleOddChoice s selectedId = (some res, s1, rec) →
      (res.correct = true → rec = some (true, s.streak + 1)) ∧
      (res.correct = false → rec = some (false, s.streak))) := by
  constructor
  · intro s selectedId res s1 rec h
    obtain ⟨_, _, _, _, _, _, _, hcases⟩ := handleChoice_eq_some h
    rcases hcases with ⟨hc, _, _, _, hrec⟩ | ⟨hc, _, _, _, hrec⟩
    · refine ⟨fun _ => hrec, fun hfc => ?_⟩
      rw [hc] at hfc
      cases hfc
    · refine ⟨fun htc => ?_, fun _ => hrec⟩
      rw [hc] at htc
      cases htc
  · intro s selectedId res s1 rec h
    obtain ⟨_, _, _, _, _, _, hcases⟩ := handleOddChoice_eq_some h
    rcases hcases with ⟨hc, _, _, _, hrec⟩ | ⟨hc, _, _, _, hrec⟩
    · refine ⟨fun _ => hrec, fun hfc => ?_⟩
      rw [hc] at hfc
      cases hfc
    · refine ⟨fun htc => ?_, fun _ => hrec⟩
      rw [hc] at htc
      cases htc

/-- C4 amended witness: the incorrect Classic resolution from streak 1
records `(false, 1)`. -/
theorem claim_C4_amended_recorded_streak_witness :
    handleChoice
        ⟨Phase.inRound,
          some (⟨"a", "A", "OA", some "High 1-A"⟩,
                ⟨"b", "B", "OB", some "High 1-B"⟩),
          some "a", 1, []⟩ "b" =
      (some ⟨false, "b", some "a", 0, Phase.afterWrong⟩,
       ⟨Phase.afterWrong,
        some (⟨"a", "A", "OA", some "High 1-A"⟩,
              ⟨"b", "B", "OB", some "High 1-B"⟩),
        some "a", 0, ["B::OB", "A::OA"]⟩,
       some (false, 1)) ∧
    (((⟨false, "b", some "a", 0, Phase.afterWrong⟩ :
        ChoiceResult).correct = true →
      (some ((false : Bool), (1 : Nat)) : Option (Bool × Nat)) =
        some (true, 1 + 1)) ∧
     ((⟨false, "b", some "a", 0, Phase.afterWrong⟩ :
        ChoiceResult).correct = false →
      (some ((false : Bool), (1 : Nat)) : Option (Bool × Nat)) =
        some (false, 1))) :=
  ⟨by decide,
   claim_C4_amended_recorded_streak.1
     ⟨Phase.inRound,
       some (⟨"a", "A", "OA", some "High 1-A"⟩,
             ⟨"b", "B", "OB", some "High 1-B"⟩),
       some "a", 1, []⟩ "b"
     ⟨false, "b", some "a", 0, Phase.afterWrong⟩
     ⟨Phase.afterWrong,
       some (⟨"a", "A", "OA", some "High 1-A"⟩,
             ⟨"b", "B", "OB", some "High 1-B"⟩),
       some "a", 0, ["B::OB", "A::OA"]⟩
     (some (false, 1)) (by decide)⟩

/-- C8: with phase not `inRound`, or no current pair / not exactly 4
options, or a `selectedId` matching no shown character, the choice
handlers return `valid:false`, leave the entire engine state unchanged
and never touch the lifetime stats. -/
theorem claim_C8_invalid_choice_noop :
    (∀ (s : GameState) (selectedId : String) (stats : Stats),
      (s.phase ≠ Phase.inRound ∨ s.currentPair = none ∨
        (∀ l r, s.currentPair = some (l, r) →
          l.id ≠ selectedId ∧ r.id ≠ selectedId)) →
      handleChoice s selectedId = (none, s, none) ∧
      applyRec stats (handleChoice s selectedId).2.2 = stats) ∧
    (∀ (s : OddGameState) (selectedId : String) (stats : Stats),
      (s.phase ≠ Phase.inRound ∨ s.options.length ≠ 4 ∨
        (∀ c ∈ s.options, c.id ≠ selectedId)) →
      handleOddChoice s selectedId = (none, s, none) ∧
      applyRec stats (handleOddChoice s selectedId).2.2 = stats) := by
  constructor
  · intro s selectedId stats h
    have hno := handleChoice_noop h
    refine ⟨hno, ?_⟩
    rw [hno]
    rfl
  · intro s selectedId stats h
    have hno := handleOddChoice_noop h
    refine ⟨hno, ?_⟩
    rw [hno]
    rfl

/-- C8 witness: a Classic state in result phase and an Odd state with
an unknown id both reject the choice unchanged. -/
theorem claim_C8_invalid_choice_noop_witness :
    (handleChoice
        ⟨Phase.afterCorrect,
          some (⟨"a", "A", "OA", some "High 1-A"⟩,
                ⟨"b", "B", "OB", some "High 1-B"⟩),
          some "a", 1, []⟩ "a" =
      (none,
       ⟨Phase.afterCorrect,
        some (⟨"a", "A", "OA", some "High 1-A"⟩,
              ⟨"b", "B", "OB", some "High 1-B"⟩),
        some "a", 1, []⟩, none) ∧
      applyRec ⟨3, 2, 1⟩
        (handleChoice
          ⟨Phase.afterCorrect,
            some (⟨"a", "A", "OA", some "High 1-A"⟩,
                  ⟨"b", "B", "OB", some "High 1-B"⟩),
            some "a", 1, []⟩ "a").2.2 = ⟨3, 2, 1⟩) ∧
    (handleOddChoice ⟨Phase.inRound, [], some "4", 0, []⟩ "4" =
      (none, ⟨Phase.inRound, [], some "4", 0, []⟩, none) ∧
      applyRec ⟨3, 2, 1⟩
        (handleOddChoice
          ⟨Phase.inRound, [], some "4", 0, []⟩ "4").2.2 = ⟨3, 2, 1⟩) :=
  ⟨claim_C8_invalid_choice_noop.1 _ "a" ⟨3, 2, 1⟩
    (Or.inl (by decide)),
   claim_C8_invalid_choice_noop.2 _ "4" ⟨3, 2, 1⟩
    (Or.inr (Or.inl (by decide)))⟩

/-- C2: every round `startNewOddRound` commits has exactly 4 options
with pairwise-distinct identity keys; exactly 3 options share one
`highestTier` value, exactly 1 option has a different one, and `oddId`
is that option's id. -/
theorem claim_C2_odd_round_shape
    (settings : Settings) (chars : List Character) (s : OddGameState)
    (ds : List Nat)
    (hph : (startNewOddRound settings chars s ds).phase =
      Phase.inRound) :
    (startNewOddRound settings chars s ds).options.length = 4 ∧
    ((startNewOddRound settings chars s ds).options.map
      getCharacterKey).Nodup ∧
    ∃ t oddC,
      (startNewOddRound settings chars s ds).oddId = some oddC.id ∧
      oddC ∈ (startNewOddRound settings chars s ds).options ∧
      oddC.highestTier ≠ some t ∧
      ((startNewOddRound settings chars s ds).options.filter
        (fun c => c.highestTier == some t)).length = 3 ∧
      (startNewOddRound settings chars s ds).options.filter
        (fun c => !(c.highestTier == some t)) = [oddC] := by
  obtain ⟨_, _, hcommit⟩ := startNewOddRound_spec rfl
  obtain ⟨h4, hnd, _, t, oddC, hodd, hmem, hne, h3, h1⟩ := hcommit hph
  exact ⟨h4, hnd, t, oddC, hodd, hmem, hne, h3, h1⟩

/-- C2 witness: a concrete pool of three `1-A` characters and one
`1-B` character. -/
theorem claim_C2_odd_round_shape_witness :
    (startNewOddRound ⟨false, false, [], false⟩
      [⟨"1", "M1", "O", some "1-A"⟩, ⟨"2", "M2", "O", some "1-A"⟩,
       ⟨"3", "M3", "O", some "1-A"⟩, ⟨"4", "D", "O", some "1-B"⟩]
      initOddGameState []).phase = Phase.inRound ∧
    ((startNewOddRound ⟨false, false, [], false⟩
      [⟨"1", "M1", "O", some "1-A"⟩, ⟨"2", "M2", "O", some "1-A"⟩,
       ⟨"3", "M3", "O", some "1-A"⟩, ⟨"4", "D", "O", some "1-B"⟩]
      initOddGameState []).options.length = 4 ∧
    ((startNewOddRound ⟨false, false, [], false⟩
      [⟨"1", "M1", "O", some "1-A"⟩, ⟨"2", "M2", "O", some "1-A"⟩,
       ⟨"3", "M3", "O", some "1-A"⟩, ⟨"4", "D", "O", some "1-B"⟩]
      initOddGameState []).options.map getCharacterKey).Nodup ∧
    ∃ t oddC,
      (startNewOddRound ⟨false, false, [], false⟩
        [⟨"1", "M1", "O", some "1-A"⟩, ⟨"2", "M2", "O", some "1-A"⟩,
         ⟨"3", "M3", "O", some "1-A"⟩, ⟨"4", "D", "O", some "1-B"⟩]
        initOddGameState []).oddId = some oddC.id ∧
      oddC ∈ (startNewOddRound ⟨false, false, [], false⟩
        [⟨"1", "M1", "O", some "1-A"⟩, ⟨"2", "M2", "O", some "1-A"⟩,
         ⟨"3", "M3", "O", some "1-A"⟩, ⟨"4", "D", "O", some "1-B"⟩]
        initOddGameState []).options ∧
      oddC.highestTier ≠ some t ∧
      ((startNewOddRound ⟨false, false, [], false⟩
        [⟨"1", "M1", "O", some "1-A"⟩, ⟨"2", "M2", "O", some "1-A"⟩,
         ⟨"3", "M3", "O", some "1-A"⟩, ⟨"4", "D", "O", some "1-B"⟩]
        initOddGameState []).options.filter
          (fun c => c.highestTier == some t)).length = 3 ∧
      (startNewOddRound ⟨false, false, [], false⟩
        [⟨"1", "M1", "O", some "1-A"⟩, ⟨"2", "M2", "O", some "1-A"⟩,
         ⟨"3", "M3", "O", some "1-A"⟩, ⟨"4", "D", "O", some "1-B"⟩]
        initOddGameState []).options.filter
          (fun c => !(c.highestTier == some t)) = [oddC]) :=
  ⟨by decide,
   claim_C2_odd_round_shape ⟨false, false, [], false⟩
     [⟨"1", "M1", "O", some "1-A"⟩, ⟨"2", "M2", "O", some "1-A"⟩,
      ⟨"3", "M3", "O", some "1-A"⟩, ⟨"4", "D", "O", some "1-B"⟩]
     initOddGameState [] (by decide)⟩

/-- C3: within one run — between restarts, which clear the history —
no identity key appears in two different resolved rounds, and a
currently committed round shares no key with any resolved round, for
every operation sequence of either engine. -/
theorem claim_C3_no_repeat_within_run :
    (∀ (settings : Settings) (chars : List Character)
      (ops : List ClassicOp) (s : GameState)
      (log : List (List String)),
      classicRun settings chars ops = some (s, log) →
      List.Pairwise DisjKeys log ∧
      (s.phase = Phase.inRound → ∀ l r, s.currentPair = some (l, r) →
        ∀ ks ∈ log,
          getCharacterKey l ∉ ks ∧ getCharacterKey r ∉ ks)) ∧
    (∀ (settings : Settings) (chars : List Character)
      (ops : List OddOp),
      List.Pairwise DisjKeys (oddRun settings chars ops).2 ∧
      ((oddRun settings chars ops).1.phase = Phase.inRound →
        ∀ ks ∈ (oddRun settings chars ops).2,
          ∀ c ∈ (oddRun settings chars ops).1.options,
            getCharacterKey c ∉ ks)) := by
  constructor
  · intro settings chars ops s log h
    have hnr := classicInv_noRepeat
      (classicRunFrom_inv ops (initGameState, []) (s, log)
        classicInv_init h)
    exact ⟨hnr.1, hnr.2⟩
  · intro settings chars ops
    have hnr := oddInv_noRepeat
      (oddRunFrom_inv settings chars ops (initOddGameState, [])
        oddInv_init)
    exact ⟨hnr.1, hnr.2⟩

/-- C3 witness: a one-round Classic run and a one-round Odd-One-Out
run at concrete pools. -/
theorem claim_C3_no_repeat_within_run_witness :
    (List.Pairwise DisjKeys [["A::OA", "B::OB"]] ∧
      ((⟨Phase.afterCorrect,
          some (⟨"a", "A", "OA", some "High 1-A"⟩,
                ⟨"b", "B", "OB", some "High 1-B"⟩),
          some "a", 1, ["B::OB", "A::OA"]⟩ : GameState).phase =
            Phase.inRound →
        ∀ l r,
          (⟨Phase.afterCorrect,
            some (⟨"a", "A", "OA", some "High 1-A"⟩,
                  ⟨"b", "B", "OB", some "High 1-B"⟩),
            some "a", 1, ["B::OB", "A::OA"]⟩ :
              GameState).currentPair = some (l, r) →
          ∀ ks ∈ [["A::OA", "B::OB"]],
            getCharacterKey l ∉ ks ∧ getCharacterKey r ∉ ks)) ∧
    (List.Pairwise DisjKeys
      (oddRun ⟨false, false, [], false⟩
        [⟨"1", "M1", "O", some "1-A"⟩, ⟨"2", "M2", "O", some "1-A"⟩,
         ⟨"3", "M3", "O", some "1-A"⟩, ⟨"4", "D", "O", some "1-B"⟩]
        [OddOp.start [], OddOp.choose "4"]).2 ∧
      ((oddRun ⟨false, false, [], false⟩
        [⟨"1", "M1", "O", some "1-A"⟩, ⟨"2", "M2", "O", some "1-A"⟩,
         ⟨"3", "M3", "O", some "1-A"⟩, ⟨"4", "D", "O", some "1-B"⟩]
        [OddOp.start [], OddOp.choose "4"]).1.phase = Phase.inRound →
        ∀ ks ∈ (oddRun ⟨false, false, [], false⟩
          [⟨"1", "M1", "O", some "1-A"⟩, ⟨"2", "M2", "O", some "1-A"⟩,
           ⟨"3", "M3", "O", some "1-A"⟩, ⟨"4", "D", "O", some "1-B"⟩]
          [OddOp.start [], OddOp.choose "4"]).2,
          ∀ c ∈ (oddRun ⟨false, false, [], false⟩
            [⟨"1", "M1", "O", some "1-A"⟩, ⟨"2", "M2", "O", some "1-A"⟩,
             ⟨"3", "M3", "O", some "1-A"⟩,
             ⟨"4", "D", "O", some "1-B"⟩]
            [OddOp.start [], OddOp.choose "4"]).1.options,
            getCharacterKey c ∉ ks)) :=
  ⟨claim_C3_no_repeat_within_run.1 ⟨false, false, [], false⟩
     [⟨"a", "A", "OA", some "High 1-A"⟩,
      ⟨"b", "B", "OB", some "High 1-B"⟩]
     [ClassicOp.start [0, 0, 0], ClassicOp.choose "a"]
     ⟨Phase.afterCorrect,
       some (⟨"a", "A", "OA", some "High 1-A"⟩,
             ⟨"b", "B", "OB", some "High 1-B"⟩),
       some "a", 1, ["B::OB", "A::OA"]⟩
     [["A::OA", "B::OB"]] (by decide),
   claim_C3_no_repeat_within_run.2 ⟨false, false, [], false⟩
     [⟨"1", "M1", "O", some "1-A"⟩, ⟨"2", "M2", "O", some "1-A"⟩,
      ⟨"3", "M3", "O", some "1-A"⟩, ⟨"4", "D", "O", some "1-B"⟩]
     [OddOp.start [], OddOp.choose "4"]⟩

/-- C9: with a two-character pool, after one resolved round a second
`startNewRound` (without a restart) returns normally — `some`, no
exception — with phase `error`: both characters are excluded by the
no-repeat filter and all 40 sampling attempts fail. -/
theorem claim_C9_two_char_pool_error
    (settings : Settings) (a b : Character) (ds1 ds3 : List Nat)
    (selectedId : String) (s1 s2 : GameState) (res : ChoiceResult)
    (rec : Option (Bool × Nat))
    (h1 : startNewRound settings [a, b] initGameState ds1 = some s1)
    (hph : s1.phase = Phase.inRound)
    (h2 : handleChoice s1 selectedId = (some res, s2, rec)) :
    ∃ s3, startNewRound settings [a, b] s2 ds3 = some s3 ∧
      s3.phase = Phase.error := by
  obtain ⟨hused1, _, _, hcommit⟩ := startNewRound_spec h1
  obtain ⟨l, r, tA, tB, hpair, hltA, hrtB, hlp, hrp, htne, hA, hB,
    _, _, _⟩ := hcommit hph
  obtain ⟨_, l', r', hp0, _, _, hused2, _⟩ := handleChoice_eq_some h2
  rw [hpair] at hp0
  obtain ⟨hl', hr'⟩ := Prod.mk.injEq .. ▸ Option.some_inj.mp hp0
  have hlr_ne : l ≠ r := by
    intro hcon
    rw [hcon, hrtB] at hltA
    exact htne (Option.some_inj.mp hltA).symm
  have hkl : getCharacterKey l ∈ s2.usedCharacterKeys := by
    rw [hused2, ← hl']
    exact (mem_addKey _ _ _).mpr
      (Or.inr ((mem_addKey _ _ _).mpr (Or.inl rfl)))
  have hkr : getCharacterKey r ∈ s2.usedCharacterKeys := by
    rw [hused2, ← hr']
    exact (mem_addKey _ _ _).mpr (Or.inl rfl)
  have henum : ∀ c ∈ modeFilteredPool settings [a, b],
      c = l ∨ c = r := by
    intro c hc
    have hcab := modeFilteredPool_sub c hc
    have hlab := modeFilteredPool_sub l hlp
    have hrab := modeFilteredPool_sub r hrp
    rcases List.mem_pair.mp hlab with rfl | rfl <;>
      rcases List.mem_pair.mp hrab with rfl | rfl
    · exact absurd rfl hlr_ne
    · exact List.mem_pair.mp hcab
    · exact (List.mem_pair.mp hcab).symm
    · exact absurd rfl hlr_ne
  have hcover : ∀ c ∈ modeFilteredPool settings [a, b],
      getCharacterKey c ∈ s2.usedCharacterKeys := by
    intro c hc
    rcases henum c hc with rfl | rfl
    · exact hkl
    · exact hkr
  cases hcall : startNewRound settings [a, b] s2 ds3 with
  | none =>
    exfalso
    obtain ⟨hvhf, hlen2, hempty⟩ := startNewRound_none hcall
    have htsub : ∀ t ∈ classicTiers settings [a, b],
        t = tA ∨ t = tB := by
      intro t ht
      obtain ⟨c, hcp, hct⟩ := classicTiers_mem ht
      rcases henum c hcp with rfl | rfl
      · rw [hltA] at hct
        exact Or.inl (Option.some_inj.mp hct).symm
      · rw [hrtB] at hct
        exact Or.inr (Option.some_inj.mp hct).symm
    obtain ⟨t1, t2, rest, hts⟩ :
        ∃ t1 t2 rest,
          classicTiers settings [a, b] = t1 :: t2 :: rest := by
      cases hts : classicTiers settings [a, b] with
      | nil => rw [hts, List.length_nil] at hlen2; omega
      | cons t1 tl =>
        cases tl with
        | nil =>
          rw [hts, List.length_cons, List.length_nil] at hlen2
          omega
        | cons t2 rest => exact ⟨t1, t2, rest, rfl⟩
    have hnd := classicTiers_nodup settings [a, b]
    rw [hts] at hnd
    have ht12 : t1 ≠ t2 := by
      rw [List.nodup_cons] at hnd
      exact fun hcon => hnd.1 (hcon ▸ List.mem_cons_self _ _)
    have h1mem : t1 ∈ classicTiers settings [a, b] := by
      rw [hts]; exact List.mem_cons_self _ _
    have h2mem : t2 ∈ classicTiers settings [a, b] := by
      rw [hts]; exact List.mem_cons_of_mem _ (List.mem_cons_self _ _)
    have hidx : getTierIndex t1 ≠ getTierIndex t2 := by
      rcases htsub t1 h1mem with rfl | rfl <;>
        rcases htsub t2 h2mem with rfl | rfl
      · exact absurd rfl ht12
      · exact fun hcon => htne (getTierIndex_inj hA hB hcon)
      · exact fun hcon => htne (getTierIndex_inj hA hB hcon.symm)
      · exact absurd rfl ht12
    have hmem12 : (t1, t2) ∈
        candidateLoop false (classicTiers settings [a, b]) := by
      rw [hts]
      exact candidateLoop_cons_mem (List.mem_cons_self _ _)
        (vhKeep_normal hidx)
    rw [hvhf] at hempty
    rw [hempty] at hmem12
    simp at hmem12
  | some s3 =>
    refine ⟨s3, rfl, ?_⟩
    obtain ⟨_, _, hphases, hcommit3⟩ := startNewRound_spec hcall
    rcases hphases with hph3 | hph3
    · exfalso
      obtain ⟨l3, r3, tA3, tB3, _, _, _, hl3p, _, _, _, _, hl3u, _, _⟩ :=
        hcommit3 hph3
      exact hl3u (hcover l3 hl3p)
    · exact hph3

/-- C9 witness: a fresh two-character run, one correct resolution,
then a failing second round. -/
theorem claim_C9_two_char_pool_error_witness :
    startNewRound ⟨false, false, [], false⟩
      [⟨"a", "A", "OA", some "High 1-A"⟩,
       ⟨"b", "B", "OB", some "High 1-B"⟩]
      initGameState [0, 0, 0] =
      some ⟨Phase.inRound,
        some (⟨"a", "A", "OA", some "High 1-A"⟩,
              ⟨"b", "B", "OB", some "High 1-B"⟩),
        some "a", 0, []⟩ ∧
    handleChoice
      ⟨Phase.inRound,
        some (⟨"a", "A", "OA", some "High 1-A"⟩,
              ⟨"b", "B", "OB", some "High 1-B"⟩),
        some "a", 0, []⟩ "a" =
      (some ⟨true, "a", some "a", 1, Phase.afterCorrect⟩,
       ⟨Phase.afterCorrect,
        some (⟨"a", "A", "OA", some "High 1-A"⟩,
              ⟨"b", "B", "OB", some "High 1-B"⟩),
        some "a", 1, ["B::OB", "A::OA"]⟩,
       some (true, 1)) ∧
    ∃ s3, startNewRound ⟨false, false, [], false⟩
        [⟨"a", "A", "OA", some "High 1-A"⟩,
         ⟨"b", "B", "OB", some "High 1-B"⟩]
        ⟨Phase.afterCorrect,
          some (⟨"a", "A", "OA", some "High 1-A"⟩,
                ⟨"b", "B", "OB", some "High 1-B"⟩),
          some "a", 1, ["B::OB", "A::OA"]⟩ [] = some s3 ∧
      s3.phase = Phase.error :=
  ⟨by decide, by decide,
   claim_C9_two_char_pool_error ⟨false, false, [], false⟩
     ⟨"a", "A", "OA", some "High 1-A"⟩
     ⟨"b", "B", "OB", some "High 1-B"⟩
     [0, 0, 0] [] "a"
     ⟨Phase.inRound,
       some (⟨"a", "A", "OA", some "High 1-A"⟩,
             ⟨"b", "B", "OB", some "High 1-B"⟩),
       some "a", 0, []⟩
     ⟨Phase.afterCorrect,
       some (⟨"a", "A", "OA", some "High 1-A"⟩,
             ⟨"b", "B", "OB", some "High 1-B"⟩),
       some "a", 1, ["B::OB", "A::OA"]⟩
     ⟨true, "a", some "a", 1, Phase.afterCorrect⟩
     (some (true, 1)) (by decide) rfl (by decide)⟩

end Vsrdle
